import Mathlib

/-!
Verification of the node-synchronization core of the wizards-wallet repository.

The development is a shallow embedding of the two source files
`src/bitcoind.rs` (sync state machine) and `src/rpc_server.rs` (RPC
dispatcher).  External collaborators (the `Blockchain` and `UtxoSet`
containers, the wallet, the coinjoin session manager, the JSON codec of the
`bitcoin` crate and the `jsonrpc` crate) are out of scope of the repository
and are modelled as parameters: records of operations over abstract state
types.  Machine integers are modelled as `Nat`; the 128-bit hash-key
truncation of `Sha256dHash::as_uint128` is modelled as `% 2 ^ 128`.
-/

/-! ## JSON values (model of `serialize::json::Json`)

Only the constructors the RPC server produces or consumes are included.
`obj` carries its fields as an association list; the `TreeMap` key ordering
of the source is abstracted (field order is not observable by any claim). -/

inductive Json where
  | null : Json
  | bool (b : Bool) : Json
  | u64 (n : Nat) : Json
  | str (s : String) : Json
  | arr (l : List Json) : Json
  | obj (l : List (String × Json)) : Json

/-- `TreeMap::insert`: replace the binding if the key is present, otherwise
add it.  (The source's `TreeMap` also sorts keys; ordering is abstracted.) -/
def tmInsert (k : String) (v : Json) : List (String × Json) → List (String × Json)
  | [] => [(k, v)]
  | (k', v') :: rest => if k' = k then (k, v) :: rest else (k', v') :: tmInsert k v rest

/-! ## Hex decoding (model of `serialize::hex::FromHex` and the
`Sha256dHash` JSON codec, which are external to the repository) -/

def hexDigitVal (c : Char) : Option Nat :=
  if '0' ≤ c ∧ c ≤ '9' then some (c.toNat - '0'.toNat)
  else if 'a' ≤ c ∧ c ≤ 'f' then some (c.toNat - 'a'.toNat + 10)
  else if 'A' ≤ c ∧ c ≤ 'F' then some (c.toNat - 'A'.toNat + 10)
  else none

/-- Parse a hex string into a natural number (big-endian digits). -/
def parseHexNat : String → Option Nat := fun s =>
  if s.isEmpty then none
  else s.data.foldl (fun acc c => acc.bind fun a => (hexDigitVal c).map fun d => a * 16 + d)
    (some 0)

/-- Parse a hex string into a byte list (pairs of digits). -/
def parseHexBytes : List Char → Option (List Nat)
  | [] => some []
  | [_] => none
  | c1 :: c2 :: rest => do
      let h ← hexDigitVal c1
      let l ← hexDigitVal c2
      let tl ← parseHexBytes rest
      pure ((h * 16 + l) :: tl)

/-- Render a natural number as a hex string.  Model of `Sha256dHash`'s
`ToJson` (the hash rendered as hex). -/
def natToHexStr (n : Nat) : String := String.mk (Nat.toDigits 16 n)

/-- `Sha256dHash::to_json()`: the hash as a hex JSON string. -/
def hashToJson (h : Nat) : Json := Json.str (natToHexStr h)

/-- Serialization of `VarInt` (bitcoin consensus variable-length integer),
used by the `PrependLength` decode mode. External to the repository;
modelled from the consensus encoding. -/
def varIntBytes (n : Nat) : List Nat :=
  if n < 0xFD then [n]
  else if n ≤ 0xFFFF then [0xFD, n % 256, n / 256 % 256]
  else if n ≤ 0xFFFFFFFF then
    [0xFE, n % 256, n / 256 % 256, n / 256 ^ 2 % 256, n / 256 ^ 3 % 256]
  else
    [0xFF, n % 256, n / 256 % 256, n / 256 ^ 2 % 256, n / 256 ^ 3 % 256,
     n / 256 ^ 4 % 256, n / 256 ^ 5 % 256, n / 256 ^ 6 % 256, n / 256 ^ 7 % 256]

/-! ## RPC errors (model of `jsonrpc::error`) -/

structure RpcError where
  code : Int
  message : String
  data : Option Json

/-- The two standard error kinds `rpc_server.rs` uses. -/
inductive StdErrKind where
  | invalidParams
  | methodNotFound

/-- `jsonrpc::error::standard_error` (external crate): fixed JSON-RPC 2.0
code and message per kind, caller-supplied data. -/
def standard_error (k : StdErrKind) (data : Option Json) : RpcError :=
  match k with
  | .invalidParams => { code := -32602, message := "Invalid params", data := data }
  | .methodNotFound => { code := -32601, message := "Method not found", data := data }

/-- The error taxonomy of `rpc_server.rs` (`BitcoinJsonError`).
`coinjoinError` carries the inner error rendered as a string. -/
inductive BitcoinJsonError where
  | badRng
  | blockNotFound
  | coinjoinError (e : String)
  | invalidTx
  | sessionNotFound
  | walletError

/-- `bitcoin_json_error`: fixed negative code and message per variant. -/
def bitcoin_json_error (k : BitcoinJsonError) (data : Option Json) : RpcError :=
  match k with
  | .badRng => { code := -1, message := "Bad RNG", data := data }
  | .blockNotFound => { code := -2, message := "Block not found", data := data }
  | .coinjoinError e => { code := -3, message := "Coinjoin error: " ++ e, data := data }
  | .invalidTx => { code := -4, message := "Transaction invalid", data := data }
  | .sessionNotFound => { code := -5, message := "Coinjoin session not found", data := data }
  | .walletError => { code := -6, message := "Wallet error", data := data }

/-! ## RPC registry metadata -/

/-- The metadata fields of an `RpcCall` registry entry. -/
structure RpcMeta where
  name : String
  desc : String
  usage : String
  coinjoin : Bool
  wallet : Bool

/-- `usage_error`: InvalidParams whose data is the usage string. -/
def usageString (m : RpcMeta) : String := "Usage: " ++ m.name ++ " " ++ m.usage

def usage_error (m : RpcMeta) : RpcError :=
  standard_error .invalidParams (some (.str (usageString m)))

/-! ## External collaborator interface for the RPC server

Abstract state types: `B` blockchain, `U` utxo set, `W` wallet,
`C` coinjoin server, `S` coinjoin session, `Tx` transaction, `Scr` script,
`SessId` session id, `Addr` address, `Hd` block header.  Mutating Rust
methods become functions returning the updated state. -/

/-- A chain node as returned by `Blockchain::get_block`: the block
(header plus transactions) and the `has_txdata` flag. -/
structure RBlock (Hd Tx : Type) where
  header : Hd
  txdata : List Tx

structure RNode (Hd Tx : Type) where
  block : RBlock Hd Tx
  has_txdata : Bool

/-- Wallet errors: `AccountNotFound` is compared against explicitly by
`coinjoin_start`; every other error is opaque. -/
inductive WErr where
  | accountNotFound
  | otherW (s : String)

def wErrString : WErr → String
  | .accountNotFound => "account not found"
  | .otherW s => s

/-- The node configuration visible to the RPC server. -/
structure Config where
  coinjoin_on : Bool

structure RpcExt (B U W C S Tx Scr SessId Addr Hd : Type) where
  get_block : B → Nat → Option (RNode Hd Tx)
  iter_count : B → Nat → Nat
  genesis_hash : B → Nat
  header_to_json : Hd → Json
  tx_to_json : Tx → Json
  n_utxos : U → Nat
  deserialize_tx : List Nat → Except String Tx
  deserialize_script : List Nat → Except String Scr
  tx_validate : Tx → U → Except String Unit
  tx_trace : Tx → U → Json
  script_trace : Scr → Json
  script_unspendable : Scr → Bool
  decode_sess_id : Json → Except String SessId
  sess_id_to_json : SessId → Json
  server_new : C
  update_all : C → C
  current_session : C → Option S
  get_session : C → SessId → Option S
  set_current_session : C → S → C
  set_session : C → SessId → S → C
  session_to_json : S → Json
  session_new : Nat → Int → Int → Addr → Except String S
  session_id : S → SessId
  session_add_unsigned : S → Tx → U → S × Except String Unit
  session_add_signed : S → Tx → U → S × Except String Unit
  session_is_complete : S → Bool
  signed_transaction : S → Tx
  new_address : W → W × Except WErr Addr
  account_insert : W → W × Except String Unit
  save_wallet_op : Config → W → Except String Unit

/-- The idle state as the RPC server sees it (`bitcoind::IdleState` plus the
config/coinjoin/wallet fields it dereferences).  `sock_sent` is the trace of
`tx` messages emitted on the shared socket. -/
structure IdleState (B U W C Tx : Type) where
  sock_sent : List Tx
  blockchain : B
  utxo_set : U
  coinjoin : Option C
  wallet : W
  config : Config

/-- Result type of one RPC procedure: the JSON result or error, plus the
(possibly mutated) idle state. -/
def RpcOut (B U W C Tx : Type) := (Except RpcError Json) × IdleState B U W C Tx

section RpcServer

variable {B U W C S Tx Scr SessId Addr Hd : Type}
variable (ext : RpcExt B U W C S Tx Scr SessId Addr Hd)

/-! ### Parameter decoding -/

/-- `decode_param::<Sha256dHash>`: a hex JSON string decoded to a hash. -/
def decodeHashParam (j : Json) : Except RpcError Nat :=
  match j with
  | .str s =>
      match parseHexNat s with
      | some n => .ok n
      | none => .error (standard_error .invalidParams (some (.str "bad hex string")))
  | _ => .error (standard_error .invalidParams (some (.str "expected string")))

/-- `decode_param::<u64>`. -/
def decodeU64Param (j : Json) : Except RpcError Nat :=
  match j with
  | .u64 n => .ok n
  | _ => .error (standard_error .invalidParams (some (.str "expected integer")))

/-- `decode_param::<i64>` (durations for `Duration::seconds`). -/
def decodeI64Param (j : Json) : Except RpcError Int :=
  match j with
  | .u64 n => .ok (n : Int)
  | _ => .error (standard_error .invalidParams (some (.str "expected integer")))

/-- `decode_param::<String>`. -/
def decodeStringParam (j : Json) : Except RpcError String :=
  match j with
  | .str s => .ok s
  | _ => .error (standard_error .invalidParams (some (.str "expected string")))

/-- `decode_param::<SessionId>` via the external codec. -/
def decodeSessParam (j : Json) : Except RpcError SessId :=
  match ext.decode_sess_id j with
  | .ok i => .ok i
  | .error e => .error (standard_error .invalidParams (some (.str e)))

/-- The two modes of `decode_hex_param`. -/
inductive RawDecodeMode where
  | decodeAsIs
  | prependLength

/-- `decode_hex_param` up to the deserializer: decode the JSON string, parse
hex into bytes, optionally prepend the VarInt length. -/
def hexParamBytes (j : Json) (mode : RawDecodeMode) : Except RpcError (List Nat) :=
  match decodeStringParam j with
  | .error e => .error e
  | .ok hex =>
      match parseHexBytes hex.data with
      | none => .error (standard_error .invalidParams (some (.str "invalid hex")))
      | some raw =>
          match mode with
          | .decodeAsIs => .ok raw
          | .prependLength => .ok (varIntBytes raw.length ++ raw)

/-- `decode_hex_param::<Transaction>`. -/
def decodeHexTx (j : Json) (mode : RawDecodeMode) : Except RpcError Tx :=
  match hexParamBytes j mode with
  | .error e => .error e
  | .ok raw =>
      match ext.deserialize_tx raw with
      | .ok t => .ok t
      | .error e => .error (standard_error .invalidParams (some (.str e)))

/-- `decode_hex_param::<Script>`. -/
def decodeHexScript (j : Json) (mode : RawDecodeMode) : Except RpcError Scr :=
  match hexParamBytes j mode with
  | .error e => .error e
  | .ok raw =>
      match ext.deserialize_script raw with
      | .ok s => .ok s
      | .error e => .error (standard_error .invalidParams (some (.str e)))

end RpcServer

/-! ### Registry metadata

One `RpcMeta` per `rpc_calls!` entry, in source order.  Doc strings are
reproduced from the source (apostrophes dropped). -/

def metaHelp : RpcMeta :=
  ⟨"help", "Fetches a list of commands", "", false, false⟩

def metaGetblock : RpcMeta :=
  ⟨"getblock", "Gets a specific block from the blockchain", "<hash>", false, false⟩

def metaGetutxocount : RpcMeta :=
  ⟨"getutxocount", "Gets the current number of unspent outputs on the blockchain.", "", false, false⟩

def metaGetblockcount : RpcMeta :=
  ⟨"getblockcount", "Gets the length of the longest chain, starting from the given hash or genesis.",
   "[start hash]", false, false⟩

def metaRawDecode : RpcMeta :=
  ⟨"raw_decode", "Decodes a raw transaction", "<hex-encoded tx data>", false, false⟩

def metaRawValidate : RpcMeta :=
  ⟨"raw_validate", "Validates a raw transaction", "<hex-encoded tx data>", false, false⟩

def metaRawTrace : RpcMeta :=
  ⟨"raw_trace", "Traces execution of the scripts of a raw transaction", "<hex-encoded tx data>",
   false, false⟩

def metaScriptTrace : RpcMeta :=
  ⟨"script_trace", "Traces execution of an individual script", "<hex-encoded script>", false, false⟩

def metaScriptUnspendable : RpcMeta :=
  ⟨"script_unspendable",
   "Checks whether a script pubkey can be proven to have no satisfying input. Returns spendable or unspendable.",
   "<hex-encoded script>", false, false⟩

def metaCoinjoinStart : RpcMeta :=
  ⟨"coinjoin_start", "Starts a new coinjoin session",
   "<target amount (satoshi)> <join duration (seconds)> <merge duration (seconds)>", true, false⟩

def metaCoinjoinStatus : RpcMeta :=
  ⟨"coinjoin_status", "Gets the status of the current coinjoin session", "[session id]", true, false⟩

def metaCoinjoinAddRawUnsigned : RpcMeta :=
  ⟨"coinjoin_add_raw_unsigned", "Adds a unsigned transaction to the current coinjoin session",
   "<rawtx> [session id]", true, false⟩

def metaCoinjoinAddRawSigned : RpcMeta :=
  ⟨"coinjoin_add_raw_signed", "Submits a (partially-)signed transaction to the current coinjoin session",
   "<rawtx> [session id]", true, false⟩

/-- The registry metadata, in the `phf_ordered_map!` insertion order. -/
def RPC_META : List RpcMeta :=
  [metaHelp, metaGetblock, metaGetutxocount, metaGetblockcount, metaRawDecode,
   metaRawValidate, metaRawTrace, metaScriptTrace, metaScriptUnspendable,
   metaCoinjoinStart, metaCoinjoinStatus, metaCoinjoinAddRawUnsigned,
   metaCoinjoinAddRawSigned]

section RpcProcs

variable {B U W C S Tx Scr SessId Addr Hd : Type}
variable (ext : RpcExt B U W C S Tx Scr SessId Addr Hd)

/-! ### The RPC procedures, one per `rpc_calls!` entry -/

/-- `help`: enumerate the registry entries whose `coinjoin` gate passes. -/
def help (_rpc : RpcMeta) (st : IdleState B U W C Tx) (_params : List Json) :
    RpcOut B U W C Tx :=
  let ret := RPC_META.foldl (fun acc call =>
    if !call.coinjoin || st.config.coinjoin_on then
      tmInsert call.name
        (.obj (tmInsert "usage" (.str call.usage)
          (tmInsert "description" (.str call.desc) []))) acc
    else acc) []
  (.ok (.obj ret), st)

/-- `getblock`. -/
def getblock (rpc : RpcMeta) (st : IdleState B U W C Tx) (params : List Json) :
    RpcOut B U W C Tx :=
  match params with
  | [p0] =>
      match decodeHashParam p0 with
      | .error e => (.error e, st)
      | .ok hash =>
          match ext.get_block st.blockchain hash with
          | some node =>
              let ret := tmInsert "header" (ext.header_to_json node.block.header) []
              let ret := tmInsert "has_txdata" (.bool node.has_txdata) ret
              let ret :=
                if node.has_txdata then
                  tmInsert "transactions" (.arr (node.block.txdata.map ext.tx_to_json)) ret
                else ret
              (.ok (.obj ret), st)
          | none => (.error (bitcoin_json_error .blockNotFound (some (hashToJson hash))), st)
  | _ => (.error (usage_error rpc), st)

/-- `getutxocount`. -/
def getutxocount (rpc : RpcMeta) (st : IdleState B U W C Tx) (params : List Json) :
    RpcOut B U W C Tx :=
  match params with
  | [] => (.ok (.u64 (ext.n_utxos st.utxo_set)), st)
  | _ => (.error (usage_error rpc), st)

/-- `getblockcount`.  The genesis block counts as block 0, hence the `- 1`. -/
def getblockcount (rpc : RpcMeta) (st : IdleState B U W C Tx) (params : List Json) :
    RpcOut B U W C Tx :=
  match params with
  | [] =>
      (.ok (.u64 (ext.iter_count st.blockchain (ext.genesis_hash st.blockchain) - 1)), st)
  | [p0] =>
      match decodeHashParam p0 with
      | .error e => (.error e, st)
      | .ok hash =>
          match ext.iter_count st.blockchain hash with
          | 0 => (.error (bitcoin_json_error .blockNotFound (some (hashToJson hash))), st)
          | n => (.ok (.u64 (n - 1)), st)
  | _ => (.error (usage_error rpc), st)

/-- `raw_decode`. -/
def raw_decode (rpc : RpcMeta) (st : IdleState B U W C Tx) (params : List Json) :
    RpcOut B U W C Tx :=
  match params with
  | [p0] =>
      match decodeHexTx ext p0 .decodeAsIs with
      | .error e => (.error e, st)
      | .ok tx => (.ok (ext.tx_to_json tx), st)
  | _ => (.error (usage_error rpc), st)

/-- `raw_validate`. -/
def raw_validate (rpc : RpcMeta) (st : IdleState B U W C Tx) (params : List Json) :
    RpcOut B U W C Tx :=
  match params with
  | [p0] =>
      match decodeHexTx ext p0 .decodeAsIs with
      | .error e => (.error e, st)
      | .ok tx =>
          match ext.tx_validate tx st.utxo_set with
          | .ok _ => (.ok (.bool true), st)
          | .error e => (.error (bitcoin_json_error .invalidTx (some (.str e))), st)
  | _ => (.error (usage_error rpc), st)

/-- `raw_trace`. -/
def raw_trace (rpc : RpcMeta) (st : IdleState B U W C Tx) (params : List Json) :
    RpcOut B U W C Tx :=
  match params with
  | [p0] =>
      match decodeHexTx ext p0 .decodeAsIs with
      | .error e => (.error e, st)
      | .ok tx => (.ok (ext.tx_trace tx st.utxo_set), st)
  | _ => (.error (usage_error rpc), st)

/-- `script_trace`. -/
def script_trace (rpc : RpcMeta) (st : IdleState B U W C Tx) (params : List Json) :
    RpcOut B U W C Tx :=
  match params with
  | [p0] =>
      match decodeHexScript ext p0 .prependLength with
      | .error e => (.error e, st)
      | .ok s => (.ok (ext.script_trace s), st)
  | _ => (.error (usage_error rpc), st)

/-- `script_unspendable`. -/
def script_unspendable (rpc : RpcMeta) (st : IdleState B U W C Tx) (params : List Json) :
    RpcOut B U W C Tx :=
  match params with
  | [p0] =>
      match decodeHexScript ext p0 .prependLength with
      | .error e => (.error e, st)
      | .ok s =>
          (.ok (.str (if ext.script_unspendable s then "unspendable" else "spendable")), st)
  | _ => (.error (usage_error rpc), st)

/-- Continuation of `coinjoin_start` after the donation address was
obtained: save the wallet, create the session, install it as current. -/
def coinjoin_start_finish (server : C) (target : Nat) (jd ed : Int)
    (st0 : IdleState B U W C Tx) (w : W) (addrRes : Except WErr Addr) :
    RpcOut B U W C Tx :=
  let st := { st0 with coinjoin := some server, wallet := w }
  match addrRes with
  | .error e => (.error (bitcoin_json_error .walletError (some (.str (wErrString e)))), st)
  | .ok address =>
      match ext.save_wallet_op st.config w with
      | .error e => (.error (bitcoin_json_error .walletError (some (.str e))), st)
      | .ok _ =>
          match ext.session_new target jd ed address with
          | .error e => (.error (bitcoin_json_error .badRng (some (.str e))), st)
          | .ok session =>
              (.ok (ext.sess_id_to_json (ext.session_id session)),
               { st0 with coinjoin := some (ext.set_current_session server session),
                          wallet := w })

/-- `coinjoin_start`. -/
def coinjoin_start (rpc : RpcMeta) (st : IdleState B U W C Tx) (params : List Json) :
    RpcOut B U W C Tx :=
  match params with
  | [p0, p1, p2] =>
      match decodeU64Param p0 with
      | .error e => (.error e, st)
      | .ok target =>
      match decodeI64Param p1 with
      | .error e => (.error e, st)
      | .ok join_duration =>
      match decodeI64Param p2 with
      | .error e => (.error e, st)
      | .ok expiry_duration =>
          -- Start the session manager if we have not, then advance timers.
          let server := ext.update_all (match st.coinjoin with
            | some c => c
            | none => ext.server_new)
          let (w1, a1) := ext.new_address st.wallet
          match a1 with
          | .error .accountNotFound =>
              let (w2, ins) := ext.account_insert w1
              match ins with
              | .error e =>
                  (.error (bitcoin_json_error .walletError (some (.str e))),
                   { st with coinjoin := some server, wallet := w2 })
              | .ok _ =>
                  let (w3, a2) := ext.new_address w2
                  coinjoin_start_finish ext server target join_duration expiry_duration st w3 a2
          | a => coinjoin_start_finish ext server target join_duration expiry_duration st w1 a
  | _ => (.error (usage_error rpc), st)

/-- `coinjoin_status`. -/
def coinjoin_status (rpc : RpcMeta) (st : IdleState B U W C Tx) (params : List Json) :
    RpcOut B U W C Tx :=
  match st.coinjoin with
  | none => (.error (bitcoin_json_error .sessionNotFound none), st)
  | some c =>
      let server := ext.update_all c
      let st1 := { st with coinjoin := some server }
      match params with
      | [] =>
          match ext.current_session server with
          | none => (.error (bitcoin_json_error .sessionNotFound none), st1)
          | some s => (.ok (ext.session_to_json s), st1)
      | [p0] =>
          match decodeSessParam ext p0 with
          | .error e => (.error e, st1)
          | .ok id =>
              match ext.get_session server id with
              | none => (.error (bitcoin_json_error .sessionNotFound none), st1)
              | some s => (.ok (ext.session_to_json s), st1)
      | _ => (.error (usage_error rpc), st1)

/-- `coinjoin_add_raw_unsigned`. -/
def coinjoin_add_raw_unsigned (rpc : RpcMeta) (st : IdleState B U W C Tx)
    (params : List Json) : RpcOut B U W C Tx :=
  match st.coinjoin with
  | none => (.error (bitcoin_json_error .sessionNotFound none), st)
  | some c =>
      let server := ext.update_all c
      let st1 := { st with coinjoin := some server }
      match params with
      | [p0] =>
          match ext.current_session server with
          | none => (.error (bitcoin_json_error .sessionNotFound none), st1)
          | some s =>
              match decodeHexTx ext p0 .decodeAsIs with
              | .error e => (.error e, st1)
              | .ok tx =>
                  let (s', r) := ext.session_add_unsigned s tx st1.utxo_set
                  let st2 := { st1 with coinjoin := some (ext.set_current_session server s') }
                  match r with
                  | .ok _ => (.ok (.bool true), st2)
                  | .error e => (.error (bitcoin_json_error (.coinjoinError e) none), st2)
      | [p0, p1] =>
          match decodeSessParam ext p1 with
          | .error e => (.error e, st1)
          | .ok id =>
              match ext.get_session server id with
              | none => (.error (bitcoin_json_error .sessionNotFound none), st1)
              | some s =>
                  match decodeHexTx ext p0 .decodeAsIs with
                  | .error e => (.error e, st1)
                  | .ok tx =>
                      let (s', r) := ext.session_add_unsigned s tx st1.utxo_set
                      let st2 := { st1 with coinjoin := some (ext.set_session server id s') }
                      match r with
                      | .ok _ => (.ok (.bool true), st2)
                      | .error e => (.error (bitcoin_json_error (.coinjoinError e) none), st2)
      | _ => (.error (usage_error rpc), st1)

/-- `coinjoin_add_raw_signed`.  On completion a `tx` message is emitted on
the shared socket (send failures are swallowed). -/
def coinjoin_add_raw_signed (rpc : RpcMeta) (st : IdleState B U W C Tx)
    (params : List Json) : RpcOut B U W C Tx :=
  match st.coinjoin with
  | none => (.error (bitcoin_json_error .sessionNotFound none), st)
  | some c =>
      let server := ext.update_all c
      let st1 := { st with coinjoin := some server }
      match params with
      | [p0] =>
          match ext.current_session server with
          | none => (.error (bitcoin_json_error .sessionNotFound none), st1)
          | some s =>
              match decodeHexTx ext p0 .decodeAsIs with
              | .error e => (.error e, st1)
              | .ok tx =>
                  let (s', r) := ext.session_add_signed s tx st1.utxo_set
                  let ret : Except RpcError Json := match r with
                    | .ok _ => .ok (.bool true)
                    | .error e => .error (bitcoin_json_error (.coinjoinError e) none)
                  let st2 := { st1 with coinjoin := some (ext.set_current_session server s') }
                  if ext.session_is_complete s' then
                    (ret, { st2 with sock_sent := st2.sock_sent ++ [ext.signed_transaction s'] })
                  else (ret, st2)
      | [p0, p1] =>
          match decodeSessParam ext p1 with
          | .error e => (.error e, st1)
          | .ok id =>
              match ext.get_session server id with
              | none => (.error (bitcoin_json_error .sessionNotFound none), st1)
              | some s =>
                  match decodeHexTx ext p0 .decodeAsIs with
                  | .error e => (.error e, st1)
                  | .ok tx =>
                      let (s', r) := ext.session_add_signed s tx st1.utxo_set
                      let ret : Except RpcError Json := match r with
                        | .ok _ => .ok (.bool true)
                        | .error e => .error (bitcoin_json_error (.coinjoinError e) none)
                      let st2 := { st1 with coinjoin := some (ext.set_session server id s') }
                      if ext.session_is_complete s' then
                        (ret, { st2 with sock_sent := st2.sock_sent ++ [ext.signed_transaction s'] })
                      else (ret, st2)
      | _ => (.error (usage_error rpc), st1)

/-! ### The registry and the dispatcher -/

/-- A registry entry (`RpcCall` of the source): metadata plus the callable. -/
structure RpcCall (B U W C Tx : Type) where
  name : String
  desc : String
  usage : String
  coinjoin : Bool
  wallet : Bool
  call : IdleState B U W C Tx → List Json → RpcOut B U W C Tx

/-- Rebuild the metadata view of a registry entry. -/
def RpcCall.toMeta (e : RpcCall B U W C Tx) : RpcMeta :=
  ⟨e.name, e.desc, e.usage, e.coinjoin, e.wallet⟩

/-- Build a registry entry from metadata plus callable (the single
declaration site of the source's `rpc_calls!` macro). -/
def mkCall (m : RpcMeta) (f : IdleState B U W C Tx → List Json → RpcOut B U W C Tx) :
    RpcCall B U W C Tx :=
  ⟨m.name, m.desc, m.usage, m.coinjoin, m.wallet, f⟩

/-- The static ordered registry `RPC_CALLS`. -/
def RPC_CALLS : List (RpcCall B U W C Tx) :=
  [mkCall metaHelp (help metaHelp),
   mkCall metaGetblock (getblock ext metaGetblock),
   mkCall metaGetutxocount (getutxocount ext metaGetutxocount),
   mkCall metaGetblockcount (getblockcount ext metaGetblockcount),
   mkCall metaRawDecode (raw_decode ext metaRawDecode),
   mkCall metaRawValidate (raw_validate ext metaRawValidate),
   mkCall metaRawTrace (raw_trace ext metaRawTrace),
   mkCall metaScriptTrace (script_trace ext metaScriptTrace),
   mkCall metaScriptUnspendable (script_unspendable ext metaScriptUnspendable),
   mkCall metaCoinjoinStart (coinjoin_start ext metaCoinjoinStart),
   mkCall metaCoinjoinStatus (coinjoin_status ext metaCoinjoinStatus),
   mkCall metaCoinjoinAddRawUnsigned (coinjoin_add_raw_unsigned ext metaCoinjoinAddRawUnsigned),
   mkCall metaCoinjoinAddRawSigned (coinjoin_add_raw_signed ext metaCoinjoinAddRawSigned)]

/-- A JSON-RPC request. -/
structure Request where
  method : String
  params : List Json

/-- `handle_rpc` generalized over the registry list (the source consults the
static `RPC_CALLS`; see `handle_rpc`). -/
def handleRpcIn (calls : List (RpcCall B U W C Tx)) (request : Request)
    (st : IdleState B U W C Tx) : RpcOut B U W C Tx :=
  match calls.find? (fun c => c.name == request.method) with
  | some rpc =>
      if !rpc.coinjoin || st.config.coinjoin_on then rpc.call st request.params
      else (.error (standard_error .methodNotFound (some (.str request.method))), st)
  | none => (.error (standard_error .methodNotFound (some (.str request.method))), st)

/-- `handle_rpc`: look up the method in `RPC_CALLS`; dispatch unless the
entry is coinjoin-gated with coinjoin off. -/
def handle_rpc (request : Request) (st : IdleState B U W C Tx) : RpcOut B U W C Tx :=
  handleRpcIn (RPC_CALLS ext) request st

end RpcProcs

/-! ### Arity bookkeeping used by the claims about parameter validation -/

/-- The parameter-list lengths each procedure accepts without returning its
usage error (read off the `match params.len()` arms; `help` ignores its
parameters entirely). -/
def acceptedArity : String → Nat → Bool
  | "help", _ => true
  | "getblock", n => n == 1
  | "getutxocount", n => n == 0
  | "getblockcount", n => n == 0 || n == 1
  | "raw_decode", n => n == 1
  | "raw_validate", n => n == 1
  | "raw_trace", n => n == 1
  | "script_trace", n => n == 1
  | "script_unspendable", n => n == 1
  | "coinjoin_start", n => n == 3
  | "coinjoin_status", n => n == 0 || n == 1
  | "coinjoin_add_raw_unsigned", n => n == 1 || n == 2
  | "coinjoin_add_raw_signed", n => n == 1 || n == 2
  | _, _ => false

/-- The three procedures that check for a live session manager before
validating arity. -/
def sessionGated (name : String) : Bool :=
  name == "coinjoin_status" || name == "coinjoin_add_raw_unsigned" ||
    name == "coinjoin_add_raw_signed"

/-! ## The sync state machine (`src/bitcoind.rs`)

Hashes are `Nat` (`zero_hash` is `0`).  The `Blockchain` and `UtxoSet`
collaborators are records of operations over abstract state types `B` and
`U`; `Blk` and `Hdr` are the block and header types.  The inbound channel is
a list of messages (exhaustion of the list models a blocked/closed channel
and yields `none`).  Sent messages are accumulated in a trace. -/

/-- Inventory item types (`InvError`, `InvTx`, `InvBlock`). -/
inductive InvType where
  | invError
  | invTx
  | invBlock
deriving DecidableEq

/-- An inventory item. -/
structure Inventory where
  inv_type : InvType
  hash : Nat
deriving DecidableEq

/-- A node of the blockchain index as exposed by its iterators: the block
and its `has_txdata` flag. -/
structure ChainNode (Blk : Type) where
  block : Blk
  has_txdata : Bool

/-- Network messages (`NetworkMessage`).  Payloads the sync core never
reads are collapsed to `Nat` placeholders; a `headers` message carries its
headers (the per-header tx-count of `LoneHeader` is unused by the core).
A `getheaders` message carries the locator hashes and the stop hash
(`GetHeadersMessage`; its protocol-version field is unused). -/
inductive NMsg (Blk Hdr : Type) where
  | version (v : Nat)
  | verack
  | addr (a : Nat)
  | block (b : Blk)
  | headers (hs : List Hdr)
  | inv (l : List Inventory)
  | getdata (l : List Inventory)
  | notfound (l : List Inventory)
  | getblocks (g : Nat)
  | getheaders (locator : List Nat) (stop : Nat)
  | ping (n : Nat)
  | pong (n : Nat)

/-- The `Blockchain` collaborator operations used by `bitcoind.rs`.
Mutating methods return the updated container; fallible ones also return
the `Result`. -/
structure BlockchainOps (B Blk Hdr : Type) where
  block_hash : Blk → Nat
  best_tip_hash : B → Nat
  locator_hashes : B → List Nat
  add_header : B → Hdr → B × Except String Unit
  add_block : B → Blk → B × Except String Unit
  iter : B → Nat → List (ChainNode Blk)
  rev_iter : B → Nat → List (ChainNode Blk)
  rev_stale_iter : B → Nat → List Blk
  remove_txdata : B → Nat → B × Except String Unit
  add_txdata : B → Blk → B × Except String Unit

/-- The `UtxoSet` collaborator operations used by `bitcoind.rs`. -/
structure UtxoOps (U Blk : Type) where
  last_hash : U → Nat
  n_utxos : U → Nat
  update : U → Blk → U × Bool
  rewind : U → Blk → U × Bool

/-- The startup states of the machine (`StartupState`).  `init` and
`loadFromDisk` perform socket and disk I/O and are out of the embedded
fragment; the blockchain and utxo set are threaded explicitly in place of
the `IdleState` record. -/
inductive StartupState (B U : Type) where
  | init
  | loadFromDisk
  | syncBlockchain (b : B) (u : U)
  | syncUtxoSet (b : B) (u : U) (cache : List Inventory)
  | saveToDisk (b : B) (u : U)
  | idle (b : B) (u : U)

/-- The two checkpoint files written by the SaveToDisk state. -/
inductive DiskWrite where
  | blockchainFile
  | utxoFile
deriving DecidableEq

section Bitcoind

variable {B U Blk Hdr : Type}
variable (bops : BlockchainOps B Blk Hdr) (uops : UtxoOps U Blk)

/-- The `getheaders` request of one SyncBlockchain round: the chain's
locator hashes and the zero stop hash. -/
def ghMsg (b : B) : NMsg Blk Hdr :=
  .getheaders (bops.locator_hashes b) 0

/-- One pass of the SyncBlockchain loop body over the inbound messages:
`with_next_message!` discards non-matching messages and answers pings; a
`headers` reply is folded into the chain with `add_header` (per-header
errors are logged and skipped); an empty reply ends the phase, a non-empty
one starts a new round by sending the next `getheaders`. -/
def syncBlockchainAux (b : B) (sent : List (NMsg Blk Hdr)) :
    List (NMsg Blk Hdr) → Option (B × List (NMsg Blk Hdr) × List (NMsg Blk Hdr))
  | [] => none
  | msg :: rest =>
      match msg with
      | .headers hs =>
          let b' := hs.foldl (fun bb h => (bops.add_header bb h).1) b
          if hs.isEmpty then some (b', sent, rest)
          else syncBlockchainAux b' (sent ++ [ghMsg bops b']) rest
      | .ping n => syncBlockchainAux b (sent ++ [.pong n]) rest
      | _ => syncBlockchainAux b sent rest

/-- The SyncBlockchain phase: send the first `getheaders`, then run rounds
until an empty `headers` reply arrives.  Returns the updated chain, the
sent-message trace and the unconsumed inbound messages; `none` models a
blocked channel (no empty reply ever arrives). -/
def syncBlockchainPhase (b : B) (msgs : List (NMsg Blk Hdr)) :
    Option (B × List (NMsg Blk Hdr) × List (NMsg Blk Hdr)) :=
  syncBlockchainAux bops b [ghMsg bops b] msgs

/-- The lookup structure for one `getdata` batch: blocks keyed by the low
128 bits of their hash (`PatriciaTree` keyed by `as_uint128`; the most
recent insertion wins a key collision). -/
abbrev RecvMap (Blk : Type) := List (Nat × Blk)

/-- Key of a block in the receive map. -/
def blockKey (blk : Blk) : Nat := bops.block_hash blk % 2 ^ 128

/-- First-match lookup in a receive map. -/
def lookupK (k : Nat) : RecvMap Blk → Option Blk
  | [] => none
  | (k', b) :: rest => if k' = k then some b else lookupK k rest

/-- The batch receive loop of SyncUtxoSet: consume inbound messages until
`need` responses were counted, where a response is a `block` (inserted into
the receive map) or a `notfound` (marks the batch failed); pings are
answered, everything else is discarded. -/
def recvBlocks : Nat → RecvMap Blk → Bool → List (NMsg Blk Hdr) → List (NMsg Blk Hdr) →
    Option (RecvMap Blk × Bool × List (NMsg Blk Hdr) × List (NMsg Blk Hdr))
  | 0, m, f, msgs, pongs => some (m, f, pongs, msgs)
  | _ + 1, _, _, [], _ => none
  | need + 1, m, f, msg :: rest, pongs =>
      match msg with
      | .block blk => recvBlocks need ((blockKey bops blk, blk) :: m) f rest pongs
      | .notfound _ => recvBlocks need m true rest pongs
      | .ping n => recvBlocks (need + 1) m f rest (pongs ++ [.pong n])
      | _ => recvBlocks (need + 1) m f rest pongs

/-- The batch apply loop of SyncUtxoSet: walk the inventory in request
order, look each item up in the receive map and call `utxo_set.update`;
a missing block or a failing update marks the batch failed. -/
def applyBatch (cache : List Inventory) (m : RecvMap Blk) (u : U) (failed : Bool) :
    U × Bool :=
  cache.foldl (fun uf iv =>
    match lookupK (iv.hash % 2 ^ 128) m with
    | some blk =>
        let r := uops.update uf.1 blk
        (r.1, uf.2 || !r.2)
    | none => (uf.1, true)) (u, failed)

/-- One full batch round after `getdata` was sent: receive exactly `nSync`
responses, then apply them against the request-order inventory. -/
def batchRound (nSync : Nat) (cache : List Inventory) (msgs : List (NMsg Blk Hdr))
    (u : U) (failed : Bool) :
    Option ((U × Bool) × List (NMsg Blk Hdr) × List (NMsg Blk Hdr)) :=
  match recvBlocks bops nSync [] false msgs [] with
  | none => none
  | some (m, f1, pongs, rest) => some (applyBatch uops cache m u (failed || f1), pongs, rest)

/-- The forward pass of SyncUtxoSet over the chain nodes past the UTXO tip
(`blockchain.iter(last_hash).enumerate().skip(1)`): push each node's
inventory into the cache; whenever the running count is a multiple of
`nSync`, send `getdata` for the cache, run a batch round and clear the
cache.  The trailing cache content is discarded at loop end. -/
def fwdAux (nSync : Nat) : Nat → List Inventory → U → Bool → List (NMsg Blk Hdr) →
    List (NMsg Blk Hdr) → List (ChainNode Blk) →
    Option (U × Bool × List (NMsg Blk Hdr) × List (NMsg Blk Hdr))
  | _, _, u, failed, sent, msgs, [] => some (u, failed, sent, msgs)
  | count, cache, u, failed, sent, msgs, node :: rest =>
      let cache' := cache ++ [⟨.invBlock, bops.block_hash node.block⟩]
      if count % nSync = 0 then
        match batchRound bops uops nSync cache' msgs u failed with
        | none => none
        | some ((u', f'), pongs, msgs') =>
            fwdAux nSync (count + 1) [] u' f' (sent ++ [.getdata cache'] ++ pongs) msgs' rest
      else fwdAux nSync (count + 1) cache' u failed sent msgs rest

/-- Inventories to fetch in the pruning step: the first `nFull` nodes from
the tip that lack txdata. -/
def pruneInvs (nFull : Nat) (rnodes : List (ChainNode Blk)) : List Inventory :=
  (rnodes.enum.filter (fun p => decide (p.1 < nFull) && !p.2.has_txdata)).map
    (fun p => ⟨.invBlock, bops.block_hash p.2.block⟩)

/-- Hashes to drop in the pruning step: nodes beyond the `nFull` window
that still carry txdata. -/
def pruneDrops (nFull : Nat) (rnodes : List (ChainNode Blk)) : List Nat :=
  (rnodes.enum.filter (fun p => !decide (p.1 < nFull) && p.2.has_txdata)).map
    (fun p => bops.block_hash p.2.block)

/-- The receive loop of the pruning step: consume `need` `block`/`notfound`
replies, feeding blocks to `add_txdata` (errors logged), answering pings. -/
def recvTxdata : Nat → B → List (NMsg Blk Hdr) → List (NMsg Blk Hdr) →
    Option (B × List (NMsg Blk Hdr) × List (NMsg Blk Hdr))
  | 0, b, msgs, pongs => some (b, pongs, msgs)
  | _ + 1, _, [], _ => none
  | need + 1, b, msg :: rest, pongs =>
      match msg with
      | .block blk => recvTxdata need (bops.add_txdata b blk).1 rest pongs
      | .notfound _ => recvTxdata need b rest pongs
      | .ping n => recvTxdata (need + 1) b rest (pongs ++ [.pong n])
      | _ => recvTxdata (need + 1) b rest pongs

/-- Where the SyncUtxoSet phase goes next. -/
inductive UtxoNext where
  | toSyncBlockchain
  | toSaveToDisk
deriving DecidableEq

/-- The SyncUtxoSet phase: rewind the stale suffix, run the forward pass in
`nSync`-sized batches, and on success prune block bodies outside the
`nFull` window (one unconditional `getdata` for the bodies to fetch);
on any forward-pass failure fall back to SyncBlockchain. -/
def syncUtxoSetPhase (nSync nFull : Nat) (b : B) (u : U) (msgs : List (NMsg Blk Hdr)) :
    Option (UtxoNext × B × U × List (NMsg Blk Hdr) × List (NMsg Blk Hdr)) :=
  let last_hash := uops.last_hash u
  -- Unwind any reorged blocks (failures logged, not fatal).
  let u1 := (bops.rev_stale_iter b last_hash).foldl (fun uu blk => (uops.rewind uu blk).1) u
  let last_hash1 := uops.last_hash u1
  let nodes := (bops.iter b last_hash1).drop 1
  match fwdAux bops uops nSync 1 [] u1 false [] msgs nodes with
  | none => none
  | some (u2, failed, sent, msgs1) =>
      if failed then some (.toSyncBlockchain, b, u2, sent, msgs1)
      else
        let rnodes := bops.rev_iter b (bops.best_tip_hash b)
        let inv_to_add_data := pruneInvs bops nFull rnodes
        let hashes_to_drop_data := pruneDrops bops nFull rnodes
        let sent1 := sent ++ [.getdata inv_to_add_data]
        let b1 := hashes_to_drop_data.foldl (fun bb h => (bops.remove_txdata bb h).1) b
        match recvTxdata bops inv_to_add_data.length b1 msgs1 [] with
        | none => none
        | some (b2, pongs, msgs2) =>
            some (.toSaveToDisk, b2, u2, sent1 ++ pongs, msgs2)

/-- The Idle-phase message handler (`idle_message`). -/
def idle_message (b : B) (msg : NMsg Blk Hdr) : B × List (NMsg Blk Hdr) :=
  match msg with
  | .version _ => (b, [.verack])
  | .verack => (b, [])
  | .addr _ => (b, [])
  | .block blk => ((bops.add_block b blk).1, [])
  | .headers _ => (b, [])
  | .inv l => (b, [.getdata l])
  | .getdata _ => (b, [])
  | .notfound _ => (b, [])
  | .getblocks _ => (b, [])
  | .getheaders _ _ => (b, [])
  | .ping n => (b, [.pong n])
  | .pong _ => (b, [])

/-- One transition of the `listen` state machine: runs the current phase to
its next state, returning the new state, the sent messages, the disk writes
and the unconsumed inbound messages.  `init` and `loadFromDisk` perform
socket/disk I/O outside the embedded fragment and are not stepped. -/
def stepPhase (nSync nFull : Nat) :
    StartupState B U → List (NMsg Blk Hdr) →
    Option (StartupState B U × List (NMsg Blk Hdr) × List DiskWrite × List (NMsg Blk Hdr))
  | .init, _ => none
  | .loadFromDisk, _ => none
  | .syncBlockchain b u, msgs =>
      (syncBlockchainPhase bops b msgs).map fun r =>
        (.syncUtxoSet r.1 u [], r.2.1, [], r.2.2)
  | .syncUtxoSet b u _cache, msgs =>
      -- the inventory cache is cleared on phase entry (`cache.clear()`)
      (syncUtxoSetPhase bops uops nSync nFull b u msgs).map fun r =>
        (match r.1 with
         | .toSyncBlockchain => StartupState.syncBlockchain r.2.1 r.2.2.1
         | .toSaveToDisk => StartupState.saveToDisk r.2.1 r.2.2.1,
         r.2.2.2.1, [], r.2.2.2.2)
  | .saveToDisk b u, msgs =>
      some (.idle b u, [], [DiskWrite.blockchainFile, DiskWrite.utxoFile], msgs)
  | .idle b u, msgs =>
      match msgs with
      | [] => none
      | msg :: rest =>
          let r := idle_message bops b msg
          some (.idle r.1 u, r.2, [], rest)

end Bitcoind

/-! ## Statement-side helpers -/

section Helpers

variable {B U Blk Hdr : Type}
variable (bops : BlockchainOps B Blk Hdr)

/-- Fold a headers reply into the chain with `add_header`, skipping errors. -/
def addHeaderFold (b : B) (hs : List Hdr) : B :=
  hs.foldl (fun bb h => (bops.add_header bb h).1) b

/-- Is a message one of the two batch responses (`block` / `notfound`)? -/
def isBatchResponse : NMsg Blk Hdr → Bool
  | .block _ => true
  | .notfound _ => true
  | _ => false

/-- Is a message a `notfound`? -/
def isNotFoundMsg : NMsg Blk Hdr → Bool
  | .notfound _ => true
  | _ => false

/-- The receive map built from a response list (as `recvBlocks` builds it,
most recent insertion first). -/
def recvMapFrom (m0 : RecvMap Blk) (resp : List (NMsg Blk Hdr)) : RecvMap Blk :=
  resp.foldl (fun mm x =>
    match x with
    | .block blk => (blockKey bops blk, blk) :: mm
    | _ => mm) m0

/-- The key/block entries of the `block` messages of a response list. -/
def respEntries (resp : List (NMsg Blk Hdr)) : List (Nat × Blk) :=
  resp.filterMap (fun x =>
    match x with
    | .block blk => some (blockKey bops blk, blk)
    | _ => none)

/-- The keys of the `block` messages of a response list. -/
def respKeys (resp : List (NMsg Blk Hdr)) : List Nat :=
  (respEntries bops resp).map Prod.fst

/-- All inventories carried by `getdata` messages of a trace, concatenated. -/
def getdataInvs (l : List (NMsg Blk Hdr)) : List Inventory :=
  (l.filterMap fun m =>
    match m with
    | .getdata invs => some invs
    | _ => none).flatten

end Helpers

/-! ## Concrete instances used by witnesses and counterexamples -/

/-- Toy RPC externals over `Nat` carrier types; `get_block` finds nothing. -/
def extNone : RpcExt Nat Nat Nat Nat Nat Nat Nat Nat Nat Nat where
  get_block := fun _ _ => none
  iter_count := fun _ _ => 1
  genesis_hash := fun _ => 0
  header_to_json := fun h => .u64 h
  tx_to_json := fun t => .u64 t
  n_utxos := fun u => u
  deserialize_tx := fun _ => .ok 0
  deserialize_script := fun _ => .ok 0
  tx_validate := fun _ _ => .ok ()
  tx_trace := fun _ _ => .null
  script_trace := fun _ => .null
  script_unspendable := fun _ => false
  decode_sess_id := fun _ => .ok 0
  sess_id_to_json := fun i => .u64 i
  server_new := 0
  update_all := fun c => c + 1
  current_session := fun _ => none
  get_session := fun _ _ => none
  set_current_session := fun c _ => c
  set_session := fun c _ _ => c
  session_to_json := fun s => .u64 s
  session_new := fun _ _ _ _ => .ok 0
  session_id := fun s => s
  session_add_unsigned := fun s _ _ => (s, .ok ())
  session_add_signed := fun s _ _ => (s, .ok ())
  session_is_complete := fun _ => false
  signed_transaction := fun _ => 0
  new_address := fun w => (w, .ok 0)
  account_insert := fun w => (w, .ok ())
  save_wallet_op := fun _ _ => .ok ()

/-- Toy RPC externals whose `get_block` always finds a block. -/
def extSome : RpcExt Nat Nat Nat Nat Nat Nat Nat Nat Nat Nat :=
  { extNone with get_block := fun _ _ => some ⟨⟨7, [11, 12]⟩, true⟩ }

/-- A toy idle state: coinjoin manager absent, coinjoin enabled. -/
def st0 : IdleState Nat Nat Nat Nat Nat :=
  ⟨[], 0, 0, none, 0, ⟨true⟩⟩

/-- A toy idle state with a live coinjoin manager. -/
def stSome : IdleState Nat Nat Nat Nat Nat :=
  ⟨[], 0, 0, some 5, 0, ⟨true⟩⟩

/-- A toy idle state with coinjoin disabled. -/
def stOff : IdleState Nat Nat Nat Nat Nat :=
  ⟨[], 0, 0, none, 0, ⟨false⟩⟩

/-- Toy chain container: the chain is the literal node list; hashes are the
blocks themselves; `add_header` appends a body-less node. -/
def cBops : BlockchainOps (List (ChainNode Nat)) Nat Nat where
  block_hash := fun blk => blk
  best_tip_hash := fun _ => 100
  locator_hashes := fun _ => [100]
  add_header := fun b h => (b ++ [⟨h, false⟩], .ok ())
  add_block := fun b _ => (b, .ok ())
  iter := fun b _ => b
  rev_iter := fun b _ => b
  rev_stale_iter := fun _ _ => []
  remove_txdata := fun b _ => (b, .ok ())
  add_txdata := fun b _ => (b, .ok ())

/-- Toy utxo set: the committed tip hash plus the list of applied blocks;
`update` always succeeds and records the block. -/
def cUops : UtxoOps (Nat × List Nat) Nat where
  last_hash := fun u => u.1
  n_utxos := fun u => u.2.length
  update := fun u blk => ((blk, u.2 ++ [blk]), true)
  rewind := fun u _ => (u, true)

/-- A three-node toy chain: genesis (hash 100, with txdata) plus blocks 1, 2. -/
def chain3 : List (ChainNode Nat) := [⟨100, true⟩, ⟨1, false⟩, ⟨2, false⟩]

/-- A genesis-only toy chain. -/
def chain1 : List (ChainNode Nat) := [⟨100, true⟩]

/-- A toy utxo set committed at the genesis hash with nothing applied. -/
def u0 : Nat × List Nat := (100, [])

/-! ## Claims about the RPC dispatcher -/

/-- Claim C6: for every RPC request, if the method name is absent from the
registry, or the matched entry is coinjoin-gated while `config.coinjoin_on`
is false, `handle_rpc` returns the method-not-found error (carrying the
method name) and leaves the idle state unchanged; otherwise it invokes the
entry's function on the parsed parameter list. -/
theorem claim_C6 {B U W C S Tx Scr SessId Addr Hd : Type}
    (ext : RpcExt B U W C S Tx Scr SessId Addr Hd) (req : Request)
    (st : IdleState B U W C Tx) :
    ((RPC_CALLS ext).find? (fun c => c.name == req.method) = none →
      handle_rpc ext req st =
        (.error (standard_error .methodNotFound (some (.str req.method))), st)) ∧
    (∀ e, (RPC_CALLS ext).find? (fun c => c.name == req.method) = some e →
      (e.coinjoin = true ∧ st.config.coinjoin_on = false →
        handle_rpc ext req st =
          (.error (standard_error .methodNotFound (some (.str req.method))), st)) ∧
      (e.coinjoin = false ∨ st.config.coinjoin_on = true →
        handle_rpc ext req st = e.call st req.params)) := by
  unfold handle_rpc handleRpcIn
  constructor
  · intro h
    rw [h]
  · intro e he
    rw [he]
    constructor
    · rintro ⟨h1, h2⟩
      simp [h1, h2]
    · rintro (h | h) <;> simp [h]

/-- Witness for C6 at a concrete unknown method name. -/
theorem claim_C6_witness :
    handle_rpc extNone ⟨"no_such_method", []⟩ st0 =
      (.error (standard_error .methodNotFound (some (.str "no_such_method"))), st0) :=
  (claim_C6 extNone ⟨"no_such_method", []⟩ st0).1 rfl

set_option maxHeartbeats 1600000 in
/-- Claim C8: the methods `help` enumerates are exactly the registry entries
whose coinjoin gate passes; they are always a sublist of the registry, and
they equal the full registry exactly when `coinjoin_on` is true. -/
theorem claim_C8 {B U W C S Tx Scr SessId Addr Hd : Type}
    (ext : RpcExt B U W C S Tx Scr SessId Addr Hd)
    (st : IdleState B U W C Tx) (params : List Json) :
    ∃ l, (@help B U W C Tx metaHelp st params).1 =
        .ok (.obj l) ∧
      l.map Prod.fst =
        ((RPC_CALLS ext).filter (fun c => !c.coinjoin || st.config.coinjoin_on)).map
          (fun c => c.name) ∧
      List.Sublist (l.map Prod.fst) ((RPC_CALLS ext).map (fun c => c.name)) ∧
      (l.map Prod.fst = (RPC_CALLS ext).map (fun c => c.name) ↔
        st.config.coinjoin_on = true) := by
  obtain ⟨ss, bc, ut, cj, w, cfg⟩ := st
  obtain ⟨con⟩ := cfg
  cases con
  · refine ⟨_, rfl, rfl, ?_, ?_⟩
    · show List.Sublist
        (((RPC_CALLS ext).filter (fun c => !c.coinjoin || false)).map (fun c => c.name))
        ((RPC_CALLS ext).map (fun c => c.name))
      exact (List.filter_sublist _).map _
    · constructor
      · intro h
        have h' : (["help", "getblock", "getutxocount", "getblockcount", "raw_decode",
            "raw_validate", "raw_trace", "script_trace", "script_unspendable"] :
              List String) =
            ["help", "getblock", "getutxocount", "getblockcount", "raw_decode",
             "raw_validate", "raw_trace", "script_trace", "script_unspendable",
             "coinjoin_start", "coinjoin_status", "coinjoin_add_raw_unsigned",
             "coinjoin_add_raw_signed"] := h
        exact absurd h' (by decide)
      · intro h
        have h' : false = true := h
        exact absurd h' (by decide)
  · refine ⟨_, rfl, rfl, ?_, ?_⟩
    · show List.Sublist
        (((RPC_CALLS ext).filter (fun c => !c.coinjoin || true)).map (fun c => c.name))
        ((RPC_CALLS ext).map (fun c => c.name))
      exact (List.filter_sublist _).map _
    · exact ⟨fun _ => rfl, fun _ => rfl⟩

/-- Claim C10: RPC dispatch consults only the coinjoin gate — replacing the
`wallet` flag of every registry entry arbitrarily does not change dispatch —
and in fact no entry of the registry sets the `wallet` flag. -/
theorem claim_C10 :
    (∀ (B U W C Tx : Type) (calls : List (RpcCall B U W C Tx))
      (f : RpcCall B U W C Tx → Bool) (req : Request) (st : IdleState B U W C Tx),
      handleRpcIn (calls.map (fun e : RpcCall B U W C Tx => { e with wallet := f e }))
          req st =
        handleRpcIn calls req st) ∧
    (∀ (B U W C S Tx Scr SessId Addr Hd : Type)
      (ext : RpcExt B U W C S Tx Scr SessId Addr Hd),
      ∀ e ∈ RPC_CALLS ext, e.wallet = false) := by
  constructor
  · intro B U W C Tx calls f req st
    unfold handleRpcIn
    rw [List.find?_map]
    have hp : ((fun c : RpcCall B U W C Tx => c.name == req.method) ∘
        (fun e : RpcCall B U W C Tx => { e with wallet := f e })) =
          fun c : RpcCall B U W C Tx => c.name == req.method := rfl
    rw [hp]
    cases h : calls.find? (fun c => c.name == req.method) <;> simp
  · intro B U W C S Tx Scr SessId Addr Hd ext e he
    have h := List.all_eq_true.mp
      (show (RPC_CALLS ext).all (fun e => !e.wallet) = true from rfl) e he
    simpa using h

/-- Witness for C10: wallet-flag flipping does not change a concrete
dispatch, and the head registry entry has `wallet = false`. -/
theorem claim_C10_witness :
    handleRpcIn ((RPC_CALLS extNone).map
        fun e : RpcCall Nat Nat Nat Nat Nat => { e with wallet := true })
        ⟨"help", []⟩ st0 =
      handleRpcIn (RPC_CALLS extNone) ⟨"help", []⟩ st0 ∧
    (mkCall metaHelp (help metaHelp) : RpcCall Nat Nat Nat Nat Nat).wallet = false :=
  ⟨claim_C10.1 Nat Nat Nat Nat Nat (RPC_CALLS extNone) (fun _ => true) ⟨"help", []⟩ st0,
   claim_C10.2 Nat Nat Nat Nat Nat Nat Nat Nat Nat Nat extNone _ (List.mem_cons_self _ _)⟩

/-- The usage string of an entry contains the entry's name. -/
theorem usage_contains (m : RpcMeta) :
    ∃ s1 s2, usageString m = s1 ++ (m.name ++ s2) :=
  ⟨"Usage: ", " " ++ m.usage, by
    rw [usageString, String.append_assoc, String.append_assoc]⟩

/-- Claim C7: `getblock` with a single hash parameter returns, for a hash
absent from the blockchain, the error with code `-2`, message
"Block not found" and the hash (as hex) in the data field; for a present
hash it returns the header, the `has_txdata` flag, and the transactions
exactly when `has_txdata` is set. -/
theorem claim_C7 {B U W C S Tx Scr SessId Addr Hd : Type}
    (ext : RpcExt B U W C S Tx Scr SessId Addr Hd)
    (st : IdleState B U W C Tx) (j : Json) (h : Nat)
    (hd : decodeHashParam j = .ok h) :
    (ext.get_block st.blockchain h = none →
      getblock ext metaGetblock st [j] =
        (.error { code := -2, message := "Block not found",
                  data := some (hashToJson h) }, st)) ∧
    (∀ node, ext.get_block st.blockchain h = some node →
      getblock ext metaGetblock st [j] =
        (.ok (.obj (if node.has_txdata then
            tmInsert "transactions" (.arr (node.block.txdata.map ext.tx_to_json))
              (tmInsert "has_txdata" (.bool node.has_txdata)
                (tmInsert "header" (ext.header_to_json node.block.header) []))
          else
            tmInsert "has_txdata" (.bool node.has_txdata)
              (tmInsert "header" (ext.header_to_json node.block.header) []))), st)) := by
  constructor
  · intro hn
    simp [getblock, hd, hn, bitcoin_json_error]
  · intro node hn
    simp [getblock, hd, hn]

/-- Witness for C7: a concrete absent hash. -/
theorem claim_C7_witness :
    getblock extNone metaGetblock st0 [.str "ff"] =
      (.error { code := -2, message := "Block not found",
                data := some (hashToJson 255) }, st0) :=
  (claim_C7 extNone st0 (.str "ff") 255 rfl).1 rfl

/-- Claim C2 counterexample: `coinjoin_status` accepts arities 0 and 1, but
invoked through the dispatcher with 2 parameters while no session manager
exists it returns the SessionNotFound error (code `-5`), not an
InvalidParams usage error (code `-32602`). -/
theorem claim_C2_counterexample :
    acceptedArity "coinjoin_status" 2 = false ∧
    handle_rpc extNone ⟨"coinjoin_status", [.null, .null]⟩ st0 =
      (.error { code := -5, message := "Coinjoin session not found", data := none }, st0) ∧
    (-5 : Int) ≠ -32602 :=
  ⟨rfl, rfl, by decide⟩

/-- Claim C2 (amended): for every registry entry other than `help` (which
ignores its parameters), a parameter list of unaccepted length yields the
InvalidParams usage error containing the method's name — provided, for the
three coinjoin session methods, a session manager exists (otherwise they
return SessionNotFound first). -/
theorem claim_C2_amended {B U W C S Tx Scr SessId Addr Hd : Type}
    (ext : RpcExt B U W C S Tx Scr SessId Addr Hd)
    (st : IdleState B U W C Tx) (e : RpcCall B U W C Tx)
    (he : e ∈ RPC_CALLS ext) (hn : e.name ≠ "help")
    (hs : sessionGated e.name = true → st.coinjoin.isSome)
    (params : List Json) (ha : acceptedArity e.name params.length = false) :
    (e.call st params).1 = .error (usage_error e.toMeta) ∧
    ∃ s1 s2, usageString e.toMeta = s1 ++ (e.name ++ s2) := by
  have hmem := he
  simp only [RPC_CALLS, mkCall, metaHelp, metaGetblock, metaGetutxocount,
    metaGetblockcount, metaRawDecode, metaRawValidate, metaRawTrace,
    metaScriptTrace, metaScriptUnspendable, metaCoinjoinStart,
    metaCoinjoinStatus, metaCoinjoinAddRawUnsigned, metaCoinjoinAddRawSigned,
    List.mem_cons, List.not_mem_nil, or_false] at hmem
  rcases hmem with h|h|h|h|h|h|h|h|h|h|h|h|h <;> subst h
  · exact absurd rfl hn
  · -- getblock
    refine ⟨?_, usage_contains _⟩
    cases params with
    | nil => rfl
    | cons p ps =>
      cases ps with
      | nil => simp [acceptedArity] at ha
      | cons q qs => rfl
  · -- getutxocount
    refine ⟨?_, usage_contains _⟩
    cases params with
    | nil => simp [acceptedArity] at ha
    | cons p ps => rfl
  · -- getblockcount
    refine ⟨?_, usage_contains _⟩
    cases params with
    | nil => simp [acceptedArity] at ha
    | cons p ps =>
      cases ps with
      | nil => simp [acceptedArity] at ha
      | cons q qs => rfl
  · -- raw_decode
    refine ⟨?_, usage_contains _⟩
    cases params with
    | nil => rfl
    | cons p ps =>
      cases ps with
      | nil => simp [acceptedArity] at ha
      | cons q qs => rfl
  · -- raw_validate
    refine ⟨?_, usage_contains _⟩
    cases params with
    | nil => rfl
    | cons p ps =>
      cases ps with
      | nil => simp [acceptedArity] at ha
      | cons q qs => rfl
  · -- raw_trace
    refine ⟨?_, usage_contains _⟩
    cases params with
    | nil => rfl
    | cons p ps =>
      cases ps with
      | nil => simp [acceptedArity] at ha
      | cons q qs => rfl
  · -- script_trace
    refine ⟨?_, usage_contains _⟩
    cases params with
    | nil => rfl
    | cons p ps =>
      cases ps with
      | nil => simp [acceptedArity] at ha
      | cons q qs => rfl
  · -- script_unspendable
    refine ⟨?_, usage_contains _⟩
    cases params with
    | nil => rfl
    | cons p ps =>
      cases ps with
      | nil => simp [acceptedArity] at ha
      | cons q qs => rfl
  · -- coinjoin_start
    refine ⟨?_, usage_contains _⟩
    cases params with
    | nil => rfl
    | cons a l1 =>
      cases l1 with
      | nil => rfl
      | cons b l2 =>
        cases l2 with
        | nil => rfl
        | cons c l3 =>
          cases l3 with
          | nil => simp [acceptedArity] at ha
          | cons d l4 => rfl
  · -- coinjoin_status
    obtain ⟨c, hc⟩ := Option.isSome_iff_exists.mp (hs rfl)
    refine ⟨?_, usage_contains _⟩
    cases params with
    | nil => simp [acceptedArity] at ha
    | cons p ps =>
      cases ps with
      | nil => simp [acceptedArity] at ha
      | cons q qs =>
        show (coinjoin_status ext ⟨"coinjoin_status",
          "Gets the status of the current coinjoin session", "[session id]",
          true, false⟩ st (p :: q :: qs)).1 = _
        simp [coinjoin_status, hc]
        rfl
  · -- coinjoin_add_raw_unsigned
    obtain ⟨c, hc⟩ := Option.isSome_iff_exists.mp (hs rfl)
    refine ⟨?_, usage_contains _⟩
    cases params with
    | nil =>
        show (coinjoin_add_raw_unsigned ext ⟨"coinjoin_add_raw_unsigned",
          "Adds a unsigned transaction to the current coinjoin session",
          "<rawtx> [session id]", true, false⟩ st []).1 = _
        simp [coinjoin_add_raw_unsigned, hc]
        rfl
    | cons p ps =>
      cases ps with
      | nil => simp [acceptedArity] at ha
      | cons q qs =>
        cases qs with
        | nil => simp [acceptedArity] at ha
        | cons r rs =>
            show (coinjoin_add_raw_unsigned ext ⟨"coinjoin_add_raw_unsigned",
              "Adds a unsigned transaction to the current coinjoin session",
              "<rawtx> [session id]", true, false⟩ st (p :: q :: r :: rs)).1 = _
            simp [coinjoin_add_raw_unsigned, hc]
            rfl
  · -- coinjoin_add_raw_signed
    obtain ⟨c, hc⟩ := Option.isSome_iff_exists.mp (hs rfl)
    refine ⟨?_, usage_contains _⟩
    cases params with
    | nil =>
        show (coinjoin_add_raw_signed ext ⟨"coinjoin_add_raw_signed",
          "Submits a (partially-)signed transaction to the current coinjoin session",
          "<rawtx> [session id]", true, false⟩ st []).1 = _
        simp [coinjoin_add_raw_signed, hc]
        rfl
    | cons p ps =>
      cases ps with
      | nil => simp [acceptedArity] at ha
      | cons q qs =>
        cases qs with
        | nil => simp [acceptedArity] at ha
        | cons r rs =>
            show (coinjoin_add_raw_signed ext ⟨"coinjoin_add_raw_signed",
              "Submits a (partially-)signed transaction to the current coinjoin session",
              "<rawtx> [session id]", true, false⟩ st (p :: q :: r :: rs)).1 = _
            simp [coinjoin_add_raw_signed, hc]
            rfl

/-- Witness for the amended C2: `getblock` with no parameters. -/
theorem claim_C2_amended_witness :
    ((mkCall metaGetblock (getblock extNone metaGetblock) :
        RpcCall Nat Nat Nat Nat Nat).call st0 []).1 =
      .error (usage_error
        (mkCall metaGetblock (getblock extNone metaGetblock) :
          RpcCall Nat Nat Nat Nat Nat).toMeta) :=
  (claim_C2_amended extNone st0 _
    (List.mem_cons_of_mem _ (List.mem_cons_self _ _))
    (by decide) (by intro h; exact absurd h (by decide)) [] rfl).1

/-! ## Claims about the sync state machine -/

/-- Characterization of the SyncBlockchain rounds: consuming one non-empty
`headers` reply per round up to and including the first empty reply, folding
every header with `add_header`, and sending one `getheaders` per round. -/
theorem syncBlockchainAux_replies {B Blk Hdr : Type} (bops : BlockchainOps B Blk Hdr)
    (rs : List (List Hdr)) :
    ∀ (b : B) (sent tail : List (NMsg Blk Hdr)), (∀ r ∈ rs, r ≠ []) →
    syncBlockchainAux bops b sent
        (rs.map NMsg.headers ++ (NMsg.headers [] :: tail)) =
      some (addHeaderFold bops b rs.flatten,
        sent ++ (List.range rs.length).map (fun i =>
          ghMsg bops (addHeaderFold bops b ((rs.take (i + 1)).flatten))),
        tail) := by
  induction rs with
  | nil =>
      intro b sent tail _
      simp [syncBlockchainAux, addHeaderFold]
  | cons r rs ih =>
      intro b sent tail hne
      have hr : r.isEmpty = false := by
        cases r with
        | nil => exact absurd rfl (hne [] (List.mem_cons_self _ _))
        | cons a l => rfl
      simp only [List.map_cons, List.cons_append, syncBlockchainAux, hr,
        Bool.false_eq_true, if_false, List.append_eq]
      rw [ih _ _ tail (fun x hx => hne x (List.mem_cons_of_mem _ hx))]
      simp only [addHeaderFold, List.flatten_cons, List.foldl_append,
        List.range_succ_eq_map, List.map_cons, List.map_map, List.take_succ_cons,
        List.take_zero, List.flatten_nil, List.append_nil, List.length_cons]
      rw [List.append_assoc]
      rfl

/-- If no empty `headers` reply is among the inbound messages, the
SyncBlockchain loop never terminates (models blocking on the channel). -/
theorem syncBlockchainAux_stuck {B Blk Hdr : Type} (bops : BlockchainOps B Blk Hdr) :
    ∀ (msgs : List (NMsg Blk Hdr)) (b : B) (sent : List (NMsg Blk Hdr)),
      (∀ hs, NMsg.headers hs ∈ msgs → hs ≠ []) →
      syncBlockchainAux bops b sent msgs = none := by
  intro msgs
  induction msgs with
  | nil => intro b sent _; rfl
  | cons m rest ih =>
      intro b sent h
      have hrest : ∀ hs, NMsg.headers hs ∈ rest → hs ≠ [] :=
        fun hs hm => h hs (List.mem_cons_of_mem _ hm)
      cases m with
      | headers hs =>
          have hne : hs.isEmpty = false := by
            cases hs with
            | nil => exact absurd rfl (h [] (List.mem_cons_self _ _))
            | cons a l => rfl
          simp only [syncBlockchainAux, hne, Bool.false_eq_true, if_false]
          exact ih _ _ hrest
      | version v => exact ih _ _ hrest
      | verack => exact ih _ _ hrest
      | addr a => exact ih _ _ hrest
      | block blk => exact ih _ _ hrest
      | inv l => exact ih _ _ hrest
      | getdata l => exact ih _ _ hrest
      | notfound l => exact ih _ _ hrest
      | getblocks g => exact ih _ _ hrest
      | getheaders l s => exact ih _ _ hrest
      | ping n => exact ih _ _ hrest
      | pong n => exact ih _ _ hrest

/-- Claim C5: SyncBlockchain repeatedly sends `getheaders` carrying the
current locator hashes and the zero stop hash, consumes exactly one
`headers` reply per round folding every header through `add_header`
(continuing past per-header errors), terminates exactly when the most
recent reply is empty, and then transitions to SyncUtxoSet with an empty
inventory cache. -/
theorem claim_C5 :
    (∀ (B U Blk Hdr : Type) (bops : BlockchainOps B Blk Hdr) (uops : UtxoOps U Blk)
      (nSync nFull : Nat) (b : B) (u : U) (rs : List (List Hdr))
      (tail : List (NMsg Blk Hdr)), (∀ r ∈ rs, r ≠ []) →
      stepPhase bops uops nSync nFull (.syncBlockchain b u)
          (rs.map NMsg.headers ++ (NMsg.headers [] :: tail)) =
        some (.syncUtxoSet (addHeaderFold bops b rs.flatten) u [],
          (List.range (rs.length + 1)).map (fun i =>
            ghMsg bops (addHeaderFold bops b ((rs.take i).flatten))),
          [], tail)) ∧
    (∀ (B U Blk Hdr : Type) (bops : BlockchainOps B Blk Hdr) (uops : UtxoOps U Blk)
      (nSync nFull : Nat) (b : B) (u : U) (msgs : List (NMsg Blk Hdr)),
      (∀ hs, NMsg.headers hs ∈ msgs → hs ≠ []) →
      stepPhase bops uops nSync nFull (.syncBlockchain b u) msgs = none) := by
  constructor
  · intro B U Blk Hdr bops uops nSync nFull b u rs tail hne
    show (syncBlockchainPhase bops b _).map _ = _
    rw [syncBlockchainPhase, syncBlockchainAux_replies bops rs b _ tail hne]
    rw [show (List.range (rs.length + 1)).map (fun i =>
        ghMsg bops (addHeaderFold bops b ((rs.take i).flatten))) =
      ghMsg bops (addHeaderFold bops b ((rs.take 0).flatten)) ::
        (List.range rs.length).map ((fun i =>
          ghMsg bops (addHeaderFold bops b ((rs.take i).flatten))) ∘ Nat.succ)
      from by rw [List.range_succ_eq_map, List.map_cons, List.map_map]]
    rfl
  · intro B U Blk Hdr bops uops nSync nFull b u msgs h
    show (syncBlockchainPhase bops b msgs).map _ = _
    rw [syncBlockchainPhase, syncBlockchainAux_stuck bops msgs b _ h]
    rfl

/-- Witness for C5: one non-empty reply, then the empty reply. -/
theorem claim_C5_witness :
    stepPhase cBops cUops 1 1 (.syncBlockchain chain1 u0)
        [.headers [7], .headers []] =
      some (.syncUtxoSet (chain1 ++ [⟨7, false⟩]) u0 [],
        [.getheaders [100] 0, .getheaders [100] 0], [], []) :=
  claim_C5.1 _ _ _ _ cBops cUops 1 1 chain1 u0 [[7]] [] (by decide)

/-- The batch receive loop consumes a prefix of the channel containing
exactly `need` responses (`block` or `notfound` messages). -/
theorem recvBlocks_consumed {B Blk Hdr : Type} (bops : BlockchainOps B Blk Hdr) :
    ∀ (msgs : List (NMsg Blk Hdr)) (need : Nat) (m0 : RecvMap Blk) (f0 : Bool)
      (pongs0 : List (NMsg Blk Hdr)) m f pongs rest,
      recvBlocks bops need m0 f0 msgs pongs0 = some (m, f, pongs, rest) →
      ∃ consumed, msgs = consumed ++ rest ∧
        consumed.countP isBatchResponse = need := by
  intro msgs
  induction msgs with
  | nil =>
      intro need m0 f0 pongs0 m f pongs rest h
      cases need with
      | zero =>
          obtain ⟨h1, h2, h3, h4⟩ : m0 = m ∧ f0 = f ∧ pongs0 = pongs ∧ [] = rest := by
            simpa [recvBlocks] using h
          exact ⟨[], by simp [← h4], rfl⟩
      | succ k => simp [recvBlocks] at h
  | cons msg rest' ih =>
      intro need m0 f0 pongs0 m f pongs rest h
      cases need with
      | zero =>
          obtain ⟨h1, h2, h3, h4⟩ : m0 = m ∧ f0 = f ∧ pongs0 = pongs ∧ msg :: rest' = rest := by
            simpa [recvBlocks] using h
          exact ⟨[], by simp [← h4], rfl⟩
      | succ k =>
          cases msg with
          | block blk =>
              obtain ⟨c, hc, hcnt⟩ := ih k _ f0 pongs0 m f pongs rest (by simpa [recvBlocks] using h)
              exact ⟨.block blk :: c, by simp [hc], by simp [isBatchResponse, hcnt]⟩
          | notfound l =>
              obtain ⟨c, hc, hcnt⟩ := ih k m0 true pongs0 m f pongs rest (by simpa [recvBlocks] using h)
              exact ⟨.notfound l :: c, by simp [hc], by simp [isBatchResponse, hcnt]⟩
          | ping n =>
              obtain ⟨c, hc, hcnt⟩ := ih (k+1) m0 f0 _ m f pongs rest (by simpa [recvBlocks] using h)
              exact ⟨.ping n :: c, by simp [hc], by simp [isBatchResponse, hcnt]⟩
          | version v =>
              obtain ⟨c, hc, hcnt⟩ := ih (k+1) m0 f0 pongs0 m f pongs rest (by simpa [recvBlocks] using h)
              exact ⟨.version v :: c, by simp [hc], by simp [isBatchResponse, hcnt]⟩
          | verack =>
              obtain ⟨c, hc, hcnt⟩ := ih (k+1) m0 f0 pongs0 m f pongs rest (by simpa [recvBlocks] using h)
              exact ⟨.verack :: c, by simp [hc], by simp [isBatchResponse, hcnt]⟩
          | addr a =>
              obtain ⟨c, hc, hcnt⟩ := ih (k+1) m0 f0 pongs0 m f pongs rest (by simpa [recvBlocks] using h)
              exact ⟨.addr a :: c, by simp [hc], by simp [isBatchResponse, hcnt]⟩
          | headers hs =>
              obtain ⟨c, hc, hcnt⟩ := ih (k+1) m0 f0 pongs0 m f pongs rest (by simpa [recvBlocks] using h)
              exact ⟨.headers hs :: c, by simp [hc], by simp [isBatchResponse, hcnt]⟩
          | inv l =>
              obtain ⟨c, hc, hcnt⟩ := ih (k+1) m0 f0 pongs0 m f pongs rest (by simpa [recvBlocks] using h)
              exact ⟨.inv l :: c, by simp [hc], by simp [isBatchResponse, hcnt]⟩
          | getdata l =>
              obtain ⟨c, hc, hcnt⟩ := ih (k+1) m0 f0 pongs0 m f pongs rest (by simpa [recvBlocks] using h)
              exact ⟨.getdata l :: c, by simp [hc], by simp [isBatchResponse, hcnt]⟩
          | getblocks g =>
              obtain ⟨c, hc, hcnt⟩ := ih (k+1) m0 f0 pongs0 m f pongs rest (by simpa [recvBlocks] using h)
              exact ⟨.getblocks g :: c, by simp [hc], by simp [isBatchResponse, hcnt]⟩
          | getheaders l stop =>
              obtain ⟨c, hc, hcnt⟩ := ih (k+1) m0 f0 pongs0 m f pongs rest (by simpa [recvBlocks] using h)
              exact ⟨.getheaders l stop :: c, by simp [hc], by simp [isBatchResponse, hcnt]⟩
          | pong n =>
              obtain ⟨c, hc, hcnt⟩ := ih (k+1) m0 f0 pongs0 m f pongs rest (by simpa [recvBlocks] using h)
              exact ⟨.pong n :: c, by simp [hc], by simp [isBatchResponse, hcnt]⟩

/-- On a channel beginning with exactly `resp.length` responses, the batch
receive loop returns the receive map folded from `resp`, flags failure iff
a `notfound` is among them, and leaves the tail unconsumed. -/
theorem recvBlocks_exact {B Blk Hdr : Type} (bops : BlockchainOps B Blk Hdr) :
    ∀ (resp : List (NMsg Blk Hdr)) (m0 : RecvMap Blk) (f0 : Bool)
      (tail pongs0 : List (NMsg Blk Hdr)),
      (∀ x ∈ resp, isBatchResponse x = true) →
      recvBlocks bops resp.length m0 f0 (resp ++ tail) pongs0 =
        some (recvMapFrom bops m0 resp, f0 || resp.any isNotFoundMsg, pongs0, tail) := by
  intro resp
  induction resp with
  | nil =>
      intro m0 f0 tail pongs0 _
      simp [recvBlocks, recvMapFrom]
  | cons x resp ih =>
      intro m0 f0 tail pongs0 hall
      have hx := hall x (List.mem_cons_self _ _)
      have hrest : ∀ y ∈ resp, isBatchResponse y = true :=
        fun y hy => hall y (List.mem_cons_of_mem _ hy)
      cases x with
      | block blk =>
          simp only [List.length_cons, List.cons_append, recvBlocks, List.append_eq]
          rw [ih _ f0 tail pongs0 hrest]
          simp [recvMapFrom, isNotFoundMsg]
      | notfound l =>
          simp only [List.length_cons, List.cons_append, recvBlocks, List.append_eq]
          rw [ih m0 true tail pongs0 hrest]
          simp [recvMapFrom, isNotFoundMsg]
      | version v => simp [isBatchResponse] at hx
      | verack => simp [isBatchResponse] at hx
      | addr a => simp [isBatchResponse] at hx
      | headers hs => simp [isBatchResponse] at hx
      | inv l => simp [isBatchResponse] at hx
      | getdata l => simp [isBatchResponse] at hx
      | getblocks g => simp [isBatchResponse] at hx
      | getheaders l stop => simp [isBatchResponse] at hx
      | ping n => simp [isBatchResponse] at hx
      | pong n => simp [isBatchResponse] at hx

/-- A batch whose failed flag is already set stays failed through the apply
loop. -/
theorem applyBatch_true {U Blk : Type} (uops : UtxoOps U Blk) :
    ∀ (cache : List Inventory) (m : RecvMap Blk) (u : U),
      (applyBatch uops cache m u true).2 = true := by
  intro cache
  induction cache with
  | nil => intro m u; rfl
  | cons iv cache ih =>
      intro m u
      simp only [applyBatch, List.foldl_cons]
      cases h : lookupK (iv.hash % 2 ^ 128) m with
      | none => simpa [h, applyBatch] using ih m u
      | some blk => simpa [h, applyBatch] using ih m (uops.update u blk).1

/-- The apply loop depends on the receive map only through lookups. -/
theorem applyBatch_congr {U Blk : Type} (uops : UtxoOps U Blk) :
    ∀ (cache : List Inventory) (m1 m2 : RecvMap Blk) (u : U) (f : Bool),
      (∀ k, lookupK k m1 = lookupK k m2) →
      applyBatch uops cache m1 u f = applyBatch uops cache m2 u f := by
  intro cache
  induction cache with
  | nil => intro m1 m2 u f _; rfl
  | cons iv cache ih =>
      intro m1 m2 u f h
      simp only [applyBatch, List.foldl_cons, h (iv.hash % 2 ^ 128)]
      cases lookupK (iv.hash % 2 ^ 128) m2 with
      | none => exact ih m1 m2 u true h
      | some blk => exact ih m1 m2 (uops.update u blk).1 _ h

/-- `lookupK` as `find?` on key-value pairs. -/
theorem lookupK_eq_find? {Blk : Type} :
    ∀ (k : Nat) (l : RecvMap Blk),
      lookupK k l = (l.find? (fun p => p.1 == k)).map Prod.snd := by
  intro k l
  induction l with
  | nil => rfl
  | cons a rest ih =>
      obtain ⟨k', b⟩ := a
      by_cases h : k' = k
      · simp [lookupK, h]
      · simp [lookupK, h, ih]

/-- `find?` is the head of the filtered list. -/
theorem find?_eq_head?_filter {α : Type} (p : α → Bool) :
    ∀ (l : List α), l.find? p = (l.filter p).head? := by
  intro l
  induction l with
  | nil => rfl
  | cons a rest ih =>
      cases h : p a with
      | true =>
          rw [List.find?_cons_of_pos _ h, List.filter_cons_of_pos h]
          rfl
      | false =>
          rw [List.find?_cons_of_neg _ (by simp [h]), List.filter_cons_of_neg (by simp [h])]
          exact ih

/-- The receive map is the reversed entry list of the responses, stacked on
the initial map. -/
theorem recvMapFrom_eq {B Blk Hdr : Type} (bops : BlockchainOps B Blk Hdr) :
    ∀ (resp : List (NMsg Blk Hdr)) (m0 : RecvMap Blk),
      recvMapFrom bops m0 resp = (respEntries bops resp).reverse ++ m0 := by
  intro resp
  induction resp with
  | nil => intro m0; simp [recvMapFrom, respEntries]
  | cons x resp ih =>
      intro m0
      cases x with
      | block b =>
          have h1 : recvMapFrom bops m0 (NMsg.block b :: resp) =
              recvMapFrom bops ((blockKey bops b, b) :: m0) resp := rfl
          have h2 : respEntries bops (NMsg.block b :: resp) =
              (blockKey bops b, b) :: respEntries bops resp := rfl
          rw [h1, h2, ih, List.reverse_cons, List.append_assoc]
          rfl
      | version v => exact ih m0
      | verack => exact ih m0
      | addr a => exact ih m0
      | headers hs => exact ih m0
      | inv l => exact ih m0
      | getdata l => exact ih m0
      | notfound l => exact ih m0
      | getblocks g => exact ih m0
      | getheaders l stop => exact ih m0
      | ping n => exact ih m0
      | pong n => exact ih m0

/-- With pairwise distinct keys, at most one entry matches a key. -/
theorem filter_key_len_le {Blk : Type} :
    ∀ (e : List (Nat × Blk)), (e.map Prod.fst).Nodup →
      ∀ k, (e.filter (fun p => p.1 == k)).length ≤ 1 := by
  intro e
  induction e with
  | nil => intro _ k; simp
  | cons a rest ih =>
      intro hn k
      obtain ⟨hna, hnr⟩ := List.nodup_cons.mp hn
      by_cases h : a.1 = k
      · have hz : rest.filter (fun p => p.1 == k) = [] := by
          apply List.filter_eq_nil_iff.mpr
          intro p hp hpk
          have hp1 : p.1 = k := by simpa using hpk
          have hap : a.1 = p.1 := h.trans hp1.symm
          exact hna (by rw [hap]; exact List.mem_map_of_mem Prod.fst hp)
        simp [List.filter_cons, h, hz]
      · simp only [List.filter_cons]
        simp only [show (a.1 == k) = false from by simpa using h]
        exact ih hnr k

/-- A permutation between lists of length at most one is an equality. -/
theorem perm_len_le_one_eq {α : Type} :
    ∀ (l1 l2 : List α), List.Perm l1 l2 → l1.length ≤ 1 → l1 = l2 := by
  intro l1 l2 h hl
  cases l1 with
  | nil => exact h.nil_eq
  | cons a l1' =>
      cases l1' with
      | nil => exact List.singleton_perm.mp h
      | cons b l1'' => simp at hl

/-- `List.any` is invariant under permutation. -/
theorem perm_any {α : Type} (p : α → Bool) :
    ∀ {l1 l2 : List α}, List.Perm l1 l2 → l1.any p = l2.any p := by
  intro l1 l2 h
  cases h1 : l1.any p with
  | true =>
      obtain ⟨x, hx, hp⟩ := List.any_eq_true.mp h1
      exact (List.any_eq_true.mpr ⟨x, h.subset hx, hp⟩).symm
  | false =>
      cases h2 : l2.any p with
      | false => rfl
      | true =>
          obtain ⟨x, hx, hp⟩ := List.any_eq_true.mp h2
          have := List.any_eq_true.mpr ⟨x, h.symm.subset hx, hp⟩
          rw [h1] at this
          exact this

/-- With distinct block keys, permuting the responses leaves every receive
map lookup unchanged. -/
theorem lookupK_recvMapFrom_perm {B Blk Hdr : Type} (bops : BlockchainOps B Blk Hdr)
    (resp1 resp2 : List (NMsg Blk Hdr)) (h : List.Perm resp1 resp2)
    (hn : (respKeys bops resp1).Nodup) :
    ∀ k, lookupK k (recvMapFrom bops [] resp1) = lookupK k (recvMapFrom bops [] resp2) := by
  intro k
  rw [recvMapFrom_eq, recvMapFrom_eq, List.append_nil, List.append_nil,
    lookupK_eq_find?, lookupK_eq_find?, find?_eq_head?_filter, find?_eq_head?_filter,
    List.filter_reverse, List.filter_reverse]
  have hperm : List.Perm (respEntries bops resp1) (respEntries bops resp2) :=
    h.filterMap _
  rw [perm_len_le_one_eq _ _ (hperm.filter _) (filter_key_len_le _ hn k)]

/-- Claim C4: in each SyncUtxoSet batch round, exactly `nSync` responses
(each a `block` or a `notfound`) are consumed from the channel; the blocks
are then applied by `update` over the inventory in the original request
order (the closed form over the request-order cache), and permuting the
order in which the peer delivers the responses does not change the round's
outcome. -/
theorem claim_C4 :
    (∀ (B Blk Hdr : Type) (bops : BlockchainOps B Blk Hdr) (need : Nat)
      (m0 : RecvMap Blk) (f0 : Bool) (msgs pongs0 : List (NMsg Blk Hdr))
      m f pongs rest,
      recvBlocks bops need m0 f0 msgs pongs0 = some (m, f, pongs, rest) →
      ∃ consumed, msgs = consumed ++ rest ∧
        consumed.countP isBatchResponse = need) ∧
    (∀ (B U Blk Hdr : Type) (bops : BlockchainOps B Blk Hdr) (uops : UtxoOps U Blk)
      (cache : List Inventory) (u : U) (failed : Bool)
      (resp tail : List (NMsg Blk Hdr)),
      (∀ x ∈ resp, isBatchResponse x = true) →
      batchRound bops uops resp.length cache (resp ++ tail) u failed =
        some (applyBatch uops cache (recvMapFrom bops [] resp) u
          (failed || resp.any isNotFoundMsg), [], tail)) ∧
    (∀ (B U Blk Hdr : Type) (bops : BlockchainOps B Blk Hdr) (uops : UtxoOps U Blk)
      (cache : List Inventory) (u : U) (failed : Bool)
      (resp1 resp2 tail : List (NMsg Blk Hdr)),
      List.Perm resp1 resp2 →
      (∀ x ∈ resp1, isBatchResponse x = true) →
      (respKeys bops resp1).Nodup →
      batchRound bops uops resp1.length cache (resp1 ++ tail) u failed =
        batchRound bops uops resp1.length cache (resp2 ++ tail) u failed) := by
  refine ⟨?_, ?_, ?_⟩
  · intro B Blk Hdr bops need m0 f0 msgs pongs0 m f pongs rest h
    exact recvBlocks_consumed bops msgs need m0 f0 pongs0 m f pongs rest h
  · intro B U Blk Hdr bops uops cache u failed resp tail hall
    unfold batchRound
    rw [recvBlocks_exact bops resp [] false tail [] hall]
    rfl
  · intro B U Blk Hdr bops uops cache u failed resp1 resp2 tail h hall hnodup
    have hall2 : ∀ x ∈ resp2, isBatchResponse x = true :=
      fun x hx => hall x (h.symm.subset hx)
    unfold batchRound
    rw [recvBlocks_exact bops resp1 [] false tail [] hall]
    rw [h.length_eq, recvBlocks_exact bops resp2 [] false tail [] hall2]
    rw [perm_any isNotFoundMsg h]
    show some (applyBatch uops cache (recvMapFrom bops [] resp1) u
        (failed || (false || resp2.any isNotFoundMsg)), ([] : List (NMsg Blk Hdr)), tail) =
      some (applyBatch uops cache (recvMapFrom bops [] resp2) u
        (failed || (false || resp2.any isNotFoundMsg)), ([] : List (NMsg Blk Hdr)), tail)
    rw [applyBatch_congr uops cache _ _ u _
      (lookupK_recvMapFrom_perm bops resp1 resp2 h hnodup)]

/-- Witness for C4 at a concrete two-block batch. -/
theorem claim_C4_witness :
    batchRound cBops cUops 2 [⟨.invBlock, 1⟩, ⟨.invBlock, 2⟩]
        [.block 1, .block 2] u0 false =
      some (((2, [1, 2]), false), [], []) := by
  have h := claim_C4.2.1 (List (ChainNode Nat)) (Nat × List Nat) Nat Nat cBops cUops
    [⟨.invBlock, 1⟩, ⟨.invBlock, 2⟩] u0 false [.block 1, .block 2] [] (by decide)
  simpa using h

/-- `getdataInvs` distributes over append. -/
theorem getdataInvs_append {Blk Hdr : Type} (l1 l2 : List (NMsg Blk Hdr)) :
    getdataInvs (l1 ++ l2) = getdataInvs l1 ++ getdataInvs l2 := by
  simp [getdataInvs, List.filterMap_append]

/-- The pong trace accumulated by the batch receive loop carries no
`getdata` inventories beyond those already accumulated. -/
theorem recvBlocks_pongs_getdata {B Blk Hdr : Type} (bops : BlockchainOps B Blk Hdr) :
    ∀ (msgs : List (NMsg Blk Hdr)) (need : Nat) (m0 : RecvMap Blk) (f0 : Bool)
      (pongs0 : List (NMsg Blk Hdr)) m f pongs rest,
      recvBlocks bops need m0 f0 msgs pongs0 = some (m, f, pongs, rest) →
      getdataInvs pongs = getdataInvs pongs0 := by
  intro msgs
  induction msgs with
  | nil =>
      intro need m0 f0 pongs0 m f pongs rest h
      cases need with
      | zero =>
          obtain ⟨_, _, h3, _⟩ : m0 = m ∧ f0 = f ∧ pongs0 = pongs ∧ [] = rest := by
            simpa [recvBlocks] using h
          rw [← h3]
      | succ k => simp [recvBlocks] at h
  | cons msg rest' ih =>
      intro need m0 f0 pongs0 m f pongs rest h
      cases need with
      | zero =>
          obtain ⟨_, _, h3, _⟩ : m0 = m ∧ f0 = f ∧ pongs0 = pongs ∧ msg :: rest' = rest := by
            simpa [recvBlocks] using h
          rw [← h3]
      | succ k =>
          cases msg with
          | block blk => exact ih k _ f0 pongs0 m f pongs rest (by simpa [recvBlocks] using h)
          | notfound l => exact ih k m0 true pongs0 m f pongs rest (by simpa [recvBlocks] using h)
          | ping n =>
              have := ih (k+1) m0 f0 (pongs0 ++ [.pong n]) m f pongs rest
                (by simpa [recvBlocks] using h)
              rw [this, getdataInvs_append]
              simp [getdataInvs]
          | version v => exact ih (k+1) m0 f0 pongs0 m f pongs rest (by simpa [recvBlocks] using h)
          | verack => exact ih (k+1) m0 f0 pongs0 m f pongs rest (by simpa [recvBlocks] using h)
          | addr a => exact ih (k+1) m0 f0 pongs0 m f pongs rest (by simpa [recvBlocks] using h)
          | headers hs => exact ih (k+1) m0 f0 pongs0 m f pongs rest (by simpa [recvBlocks] using h)
          | inv l => exact ih (k+1) m0 f0 pongs0 m f pongs rest (by simpa [recvBlocks] using h)
          | getdata l => exact ih (k+1) m0 f0 pongs0 m f pongs rest (by simpa [recvBlocks] using h)
          | getblocks g => exact ih (k+1) m0 f0 pongs0 m f pongs rest (by simpa [recvBlocks] using h)
          | getheaders l stop => exact ih (k+1) m0 f0 pongs0 m f pongs rest (by simpa [recvBlocks] using h)
          | pong n => exact ih (k+1) m0 f0 pongs0 m f pongs rest (by simpa [recvBlocks] using h)

/-- Nodes whose running count never hits a multiple of `nSync` are only
accumulated into the cache: they trigger no send, no receive and no apply. -/
theorem fwd_fill {B U Blk Hdr : Type} (bops : BlockchainOps B Blk Hdr)
    (uops : UtxoOps U Blk) (nSync : Nat) :
    ∀ (batch : List (ChainNode Blk)) (count : Nat) (cache : List Inventory)
      (u : U) (f : Bool) (s m : List (NMsg Blk Hdr)) (rest : List (ChainNode Blk)),
      (∀ i, i < batch.length → (count + i) % nSync ≠ 0) →
      fwdAux bops uops nSync count cache u f s m (batch ++ rest) =
        fwdAux bops uops nSync (count + batch.length)
          (cache ++ batch.map (fun nd => ⟨.invBlock, bops.block_hash nd.block⟩))
          u f s m rest := by
  intro batch
  induction batch with
  | nil => intro count cache u f s m rest _; simp
  | cons nd batch ih =>
      intro count cache u f s m rest h
      have h0 : count % nSync ≠ 0 := by simpa using h 0 (Nat.succ_pos _)
      simp only [List.cons_append, fwdAux, List.append_eq]
      rw [if_neg h0]
      refine (ih (count + 1) _ u f s m rest (fun i hi => by
          have := h (i + 1) (by simpa using Nat.succ_lt_succ hi)
          rwa [show count + (i + 1) = count + 1 + i from by omega] at this)).trans ?_
      rw [show count + 1 + batch.length = count + (batch.length + 1) from by omega]
      rw [List.append_assoc]
      rfl

/-- Peeling one full batch off the forward pass: with the running count at a
batch boundary, the first `nSync` nodes are sent as one `getdata`, received
and applied as one batch round, and the pass continues on the remainder. -/
theorem fwd_peel {B U Blk Hdr : Type} (bops : BlockchainOps B Blk Hdr)
    (uops : UtxoOps U Blk) (nSync : Nat) (h1 : 0 < nSync) :
    ∀ (nodes : List (ChainNode Blk)) (count : Nat) (u : U) (f : Bool)
      (s m : List (NMsg Blk Hdr)),
      count % nSync = 1 % nSync → nSync ≤ nodes.length →
      fwdAux bops uops nSync count [] u f s m nodes =
        match batchRound bops uops nSync
            ((nodes.take nSync).map (fun nd =>
              { inv_type := .invBlock, hash := bops.block_hash nd.block })) m u f with
        | none => none
        | some ((u', f'), pongs, m') =>
            fwdAux bops uops nSync (count + nSync) [] u' f'
              (s ++ [.getdata ((nodes.take nSync).map (fun nd =>
                { inv_type := .invBlock, hash := bops.block_hash nd.block }))] ++ pongs)
              m' (nodes.drop nSync) := by
  intro nodes count u f s m hc hlen
  have hlt : nSync - 1 < nodes.length := by omega
  have e2 : nSync - 1 + 1 = nSync := by omega
  have hlen1 : (nodes.take (nSync - 1)).length = nSync - 1 := by
    rw [List.length_take]
    omega
  have hnoflush : ∀ i, i < (nodes.take (nSync - 1)).length → (count + i) % nSync ≠ 0 := by
    intro i hi
    rw [hlen1] at hi
    have hmod : (count + i) % nSync = (1 + i) % nSync := by
      rw [Nat.add_mod, hc, ← Nat.add_mod]
    rw [hmod, Nat.mod_eq_of_lt (by omega : 1 + i < nSync)]
    omega
  have hstep : fwdAux bops uops nSync count [] u f s m nodes =
      fwdAux bops uops nSync count [] u f s m
        (nodes.take (nSync - 1) ++ nodes.drop (nSync - 1)) := by
    rw [List.take_append_drop]
  rw [hstep, fwd_fill bops uops nSync (nodes.take (nSync - 1)) count [] u f s m
    (nodes.drop (nSync - 1)) hnoflush, hlen1]
  have hdropeq : nodes.drop (nSync - 1) = nodes[nSync - 1] :: nodes.drop nSync := by
    rw [List.drop_eq_getElem_cons hlt, e2]
  rw [hdropeq]
  have hc0 : (count + (nSync - 1)) % nSync = 0 := by
    rw [Nat.add_mod, hc, ← Nat.add_mod, show 1 + (nSync - 1) = nSync from by omega,
      Nat.mod_self]
  have htake : nodes.take nSync = nodes.take (nSync - 1) ++ [nodes[nSync - 1]] := by
    conv_lhs => rw [← e2]
    rw [List.take_succ, List.getElem?_eq_getElem hlt]
    rfl
  simp only [fwdAux]
  rw [if_pos hc0]
  rw [show count + (nSync - 1) + 1 = count + nSync from by omega]
  rw [htake, List.map_append, List.nil_append]
  rfl

/-- The forward pass ignores the trailing partial batch: its result is the
result on the chain truncated to a whole number of batches, and the
`getdata` inventories it sends are exactly the truncated chain's blocks. -/
theorem fwd_trunc {B U Blk Hdr : Type} (bops : BlockchainOps B Blk Hdr)
    (uops : UtxoOps U Blk) (nSync : Nat) (h1 : 0 < nSync) :
    ∀ (n : Nat) (nodes : List (ChainNode Blk)), nodes.length = n →
    ∀ (count : Nat) (u : U) (f : Bool) (s m : List (NMsg Blk Hdr)),
      count % nSync = 1 % nSync →
      (fwdAux bops uops nSync count [] u f s m nodes =
        fwdAux bops uops nSync count [] u f s m
          (nodes.take (nodes.length - nodes.length % nSync))) ∧
      (∀ u' f' sent m', fwdAux bops uops nSync count [] u f s m nodes =
          some (u', f', sent, m') →
        getdataInvs sent = getdataInvs s ++
          (nodes.take (nodes.length - nodes.length % nSync)).map
            (fun nd => { inv_type := .invBlock, hash := bops.block_hash nd.block })) := by
  intro n
  induction n using Nat.strong_induction_on with
  | _ n ih =>
  intro nodes hn count u f s m hc
  by_cases hlt : nodes.length < nSync
  case pos =>
    have hmod : nodes.length % nSync = nodes.length := Nat.mod_eq_of_lt hlt
    have htake0 : nodes.length - nodes.length % nSync = 0 := by omega
    have hfull : fwdAux bops uops nSync count [] u f s m nodes = some (u, f, s, m) := by
      have hfill := fwd_fill bops uops nSync nodes count [] u f s m []
        (fun i hi => by
          have hm2 : (count + i) % nSync = (1 + i) % nSync := by
            rw [Nat.add_mod, hc, ← Nat.add_mod]
          rw [hm2, Nat.mod_eq_of_lt (by omega : 1 + i < nSync)]
          omega)
      rw [List.append_nil] at hfill
      rw [hfill]
      rfl
    constructor
    · rw [htake0, hfull]
      rfl
    · intro u' f' sent m' hsome
      rw [hfull] at hsome
      obtain ⟨h1', h2', h3', h4'⟩ : u = u' ∧ f = f' ∧ s = sent ∧ m = m' := by
        simpa using hsome
      rw [← h3', htake0]
      simp
  case neg =>
    have hge : nSync ≤ nodes.length := by omega
    have hsub : nSync ≤ nodes.length - nodes.length % nSync := by
      have hdm := Nat.div_add_mod nodes.length nSync
      have hq : 1 ≤ nodes.length / nSync := (Nat.one_le_div_iff h1).mpr hge
      have h3 : nSync * 1 ≤ nSync * (nodes.length / nSync) :=
        Nat.mul_le_mul_left nSync hq
      rw [Nat.mul_one] at h3
      revert hdm h3
      generalize nSync * (nodes.length / nSync) = X
      intro hdm h3
      omega
    have hdropmod : (nodes.length - nSync) % nSync = nodes.length % nSync := by
      conv_rhs => rw [← Nat.sub_add_cancel hge]
      rw [Nat.add_mod_right]
    have hlen_take : (nodes.take (nodes.length - nodes.length % nSync)).length =
        nodes.length - nodes.length % nSync := by
      rw [List.length_take]
      omega
    have htt : (nodes.take (nodes.length - nodes.length % nSync)).take nSync =
        nodes.take nSync := by
      rw [List.take_take, min_eq_left hsub]
    have htd : (nodes.take (nodes.length - nodes.length % nSync)).drop nSync =
        (nodes.drop nSync).take (nodes.length - nodes.length % nSync - nSync) := by
      rw [List.drop_take]
    have hcnext : (count + nSync) % nSync = 1 % nSync := by
      rw [Nat.add_mod_right, hc]
    rw [fwd_peel bops uops nSync h1 nodes count u f s m hc hge]
    rw [fwd_peel bops uops nSync h1 (nodes.take (nodes.length - nodes.length % nSync))
      count u f s m hc (by rw [hlen_take]; exact hsub)]
    rw [htt, htd]
    cases hbr : batchRound bops uops nSync
        ((nodes.take nSync).map (fun nd =>
          { inv_type := .invBlock, hash := bops.block_hash nd.block })) m u f with
    | none =>
        refine ⟨rfl, ?_⟩
        intro u' f' sent m' hs
        simp at hs
    | some out =>
        obtain ⟨⟨u2, f2⟩, pongs, m2⟩ := out
        have hlen_drop : (nodes.drop nSync).length = nodes.length - nSync :=
          List.length_drop nSync nodes
        obtain ⟨ihA, ihB⟩ := ih (n - nSync) (by omega) (nodes.drop nSync)
          (by rw [hlen_drop]; omega) (count + nSync) u2 f2
          (s ++ [.getdata ((nodes.take nSync).map (fun nd =>
            { inv_type := .invBlock, hash := bops.block_hash nd.block }))] ++ pongs)
          m2 hcnext
        rw [hlen_drop, hdropmod,
          show nodes.length - nSync - nodes.length % nSync =
            nodes.length - nodes.length % nSync - nSync from by omega] at ihA ihB
        have hpongs : getdataInvs pongs = ([] : List Inventory) := by
          unfold batchRound at hbr
          cases hrb : recvBlocks bops nSync [] false m [] with
          | none => rw [hrb] at hbr; simp at hbr
          | some q =>
              obtain ⟨mm, f1, p, rest⟩ := q
              rw [hrb] at hbr
              obtain ⟨hA, hB, hC⟩ :
                  applyBatch uops ((nodes.take nSync).map (fun nd =>
                    { inv_type := .invBlock, hash := bops.block_hash nd.block }))
                      mm u (f || f1) = (u2, f2) ∧ p = pongs ∧ rest = m2 := by
                simpa using hbr
              rw [← hB]
              exact recvBlocks_pongs_getdata bops m nSync [] false [] mm f1 p rest hrb
        have hsplit2 : nodes.take (nodes.length - nodes.length % nSync) =
            nodes.take nSync ++
              (nodes.drop nSync).take (nodes.length - nodes.length % nSync - nSync) := by
          conv_lhs => rw [show nodes.length - nodes.length % nSync =
            nSync + (nodes.length - nodes.length % nSync - nSync) from by omega]
          rw [List.take_add]
        constructor
        · exact ihA
        · intro u' f' sent m' hs
          have hB2 := ihB u' f' sent m' hs
          rw [hB2, hsplit2, List.map_append, getdataInvs_append, getdataInvs_append,
            hpongs]
          simp [getdataInvs, List.append_assoc]

/-- Claim C9: in the forward pass a `getdata` batch fires only when the
running count is an exact multiple of `nSync`; when the number of new
blocks is not a multiple of `nSync`, the run is indistinguishable from the
run on the chain truncated to whole batches, and the concatenated `getdata`
inventories cover exactly the truncated prefix — the trailing partial batch
is never requested and never applied. -/
theorem claim_C9 {B U Blk Hdr : Type} (bops : BlockchainOps B Blk Hdr)
    (uops : UtxoOps U Blk) (nSync : Nat) (u : U) (f : Bool)
    (s msgs : List (NMsg Blk Hdr)) (nodes : List (ChainNode Blk))
    (h1 : 0 < nSync) (hr : nodes.length % nSync ≠ 0) :
    (fwdAux bops uops nSync 1 [] u f s msgs nodes =
      fwdAux bops uops nSync 1 [] u f s msgs
        (nodes.take (nodes.length - nodes.length % nSync))) ∧
    (∀ u' f' sent msgs', fwdAux bops uops nSync 1 [] u f s msgs nodes =
        some (u', f', sent, msgs') →
      getdataInvs sent = getdataInvs s ++
        (nodes.take (nodes.length - nodes.length % nSync)).map
          (fun nd => { inv_type := .invBlock, hash := bops.block_hash nd.block })) :=
  fwd_trunc bops uops nSync h1 nodes.length nodes rfl 1 u f s msgs rfl

/-- Witness for C9: three new blocks with a batch size of two — the third
block is never requested. -/
theorem claim_C9_witness :
    fwdAux cBops cUops 2 1 [] u0 false [] [.block 5, .block 6]
        [⟨1, false⟩, ⟨2, false⟩, ⟨3, false⟩] =
      fwdAux cBops cUops 2 1 [] u0 false [] [.block 5, .block 6]
        [⟨1, false⟩, ⟨2, false⟩] :=
  (claim_C9 cBops cUops 2 u0 false [] [.block 5, .block 6]
    [⟨1, false⟩, ⟨2, false⟩, ⟨3, false⟩] (by decide) (by decide)).1

/-- Claim C1 (amended): when the chain past the UTXO tip is one full batch
and the peer's `nSync` responses include a `notfound`, the batch is marked
failed and the machine falls back to SyncBlockchain — but the received
blocks are still pushed through `utxo_set.update` in request order, so the
partial application persists in the returned UTXO set. -/
theorem claim_C1_amended {B U Blk Hdr : Type} (bops : BlockchainOps B Blk Hdr)
    (uops : UtxoOps U Blk) (nSync nFull : Nat) (b : B) (u : U)
    (nodes : List (ChainNode Blk)) (resp tail : List (NMsg Blk Hdr))
    (h1 : 0 < nSync)
    (hstale : bops.rev_stale_iter b (uops.last_hash u) = [])
    (hiter : (bops.iter b (uops.last_hash u)).drop 1 = nodes)
    (hlen : nodes.length = nSync)
    (hresp : ∀ x ∈ resp, isBatchResponse x = true)
    (hrlen : resp.length = nSync)
    (hnf : resp.any isNotFoundMsg = true) :
    syncUtxoSetPhase bops uops nSync nFull b u (resp ++ tail) =
      some (.toSyncBlockchain, b,
        (applyBatch uops (nodes.map (fun nd =>
            { inv_type := .invBlock, hash := bops.block_hash nd.block }))
          (recvMapFrom bops [] resp) u true).1,
        [.getdata (nodes.map (fun nd =>
          { inv_type := .invBlock, hash := bops.block_hash nd.block }))],
        tail) := by
  simp only [syncUtxoSetPhase]
  rw [hstale]
  simp only [List.foldl_nil]
  rw [hiter]
  rw [fwd_peel bops uops nSync h1 nodes 1 u false [] (resp ++ tail) rfl
    (le_of_eq hlen.symm)]
  rw [show nodes.take nSync = nodes from by rw [← hlen]; exact List.take_length nodes]
  rw [show nodes.drop nSync = ([] : List (ChainNode Blk)) from by
    rw [← hlen]; exact List.drop_length nodes]
  unfold batchRound
  have hex := recvBlocks_exact bops resp [] false tail [] hresp
  rw [hrlen] at hex
  rw [hex, hnf]
  simp only [Bool.or_true, Bool.false_or]
  simp only [fwdAux]
  rw [applyBatch_true uops (nodes.map (fun nd =>
    { inv_type := .invBlock, hash := bops.block_hash nd.block }))
    (recvMapFrom bops [] resp) u]
  simp

/-- Claim C1 counterexample: with a two-block batch where the peer returns
block 1 and a `notfound`, the machine transitions back to SyncBlockchain —
but the UTXO set has changed: block 1 was applied and persists. -/
theorem claim_C1_counterexample :
    stepPhase cBops cUops 2 5 (.syncUtxoSet chain3 u0 []) [.block 1, .notfound []] =
      some (.syncBlockchain chain3 (1, [1]),
        [.getdata [⟨.invBlock, 1⟩, ⟨.invBlock, 2⟩]], [], []) ∧
    ((1 : Nat), [1]) ≠ u0 :=
  ⟨rfl, by decide⟩

/-- Witness for the amended C1 at the concrete two-block chain. -/
theorem claim_C1_amended_witness :
    syncUtxoSetPhase cBops cUops 2 5 chain3 u0 [.block 1, .notfound []] =
      some (.toSyncBlockchain, chain3, (1, [1]),
        [.getdata [⟨.invBlock, 1⟩, ⟨.invBlock, 2⟩]], []) := by
  have h := claim_C1_amended cBops cUops 2 5 chain3 u0 [⟨1, false⟩, ⟨2, false⟩]
    [.block 1, .notfound []] [] (by decide) rfl rfl rfl (by decide) rfl rfl
  simpa using h

/-- Claim C3 (amended): on an empty first `headers` reply, SyncBlockchain
completes immediately and hands the unchanged chain to SyncUtxoSet; against
the genesis-only chain the forward pass requests nothing, but the pruning
step still sends one `getdata` message (with an empty inventory, the
genesis body being present); the machine then reaches SaveToDisk, which
writes both checkpoint files. -/
theorem claim_C3_amended {B U Blk Hdr : Type} (bops : BlockchainOps B Blk Hdr)
    (uops : UtxoOps U Blk) (nSync nFull : Nat) (b : B) (u : U) (g : Nat)
    (gnode : ChainNode Blk) (tail : List (NMsg Blk Hdr))
    (hfull : 0 < nFull)
    (hlast : uops.last_hash u = g)
    (hstale : bops.rev_stale_iter b g = [])
    (hiter : bops.iter b g = [gnode])
    (htip : bops.best_tip_hash b = g)
    (hrev : bops.rev_iter b g = [gnode])
    (htx : gnode.has_txdata = true) :
    stepPhase bops uops nSync nFull (.syncBlockchain b u) (NMsg.headers [] :: tail) =
        some (.syncUtxoSet b u [], [ghMsg bops b], [], tail) ∧
    stepPhase bops uops nSync nFull (.syncUtxoSet b u []) tail =
        some (.saveToDisk b u, [.getdata []], [], tail) ∧
    stepPhase bops uops nSync nFull (.saveToDisk b u) tail =
        some (.idle b u, [], [.blockchainFile, .utxoFile], tail) := by
  refine ⟨?_, ?_, rfl⟩
  · simp [stepPhase, syncBlockchainPhase, syncBlockchainAux]
  · simp only [stepPhase, syncUtxoSetPhase]
    rw [hlast, hstale]
    simp only [List.foldl_nil]
    rw [hlast, hiter]
    have hpi : pruneInvs bops nFull [gnode] = [] := by
      simp [pruneInvs, htx]
    have hpd : pruneDrops bops nFull [gnode] = [] := by
      simp [pruneDrops, htx, hfull]
    rw [htip, hrev, hpi, hpd]
    simp [fwdAux, recvTxdata]

/-- Claim C3 counterexample: in the empty-headers scenario against the
genesis-only chain, the SyncUtxoSet pass does send a `getdata` message (its
inventory empty), contradicting "no getdata is sent". -/
theorem claim_C3_counterexample :
    stepPhase cBops cUops 2 5 (.syncBlockchain chain1 u0) [NMsg.headers []] =
      some (.syncUtxoSet chain1 u0 [], [.getheaders [100] 0], [], []) ∧
    stepPhase cBops cUops 2 5 (.syncUtxoSet chain1 u0 []) [] =
      some (.saveToDisk chain1 u0, [.getdata []], [], []) ∧
    NMsg.getdata [] ∈ ([.getdata []] : List (NMsg Nat Nat)) :=
  ⟨rfl, rfl, List.Mem.head _⟩

/-- Witness for the amended C3 at the concrete genesis-only chain. -/
theorem claim_C3_amended_witness :
    stepPhase cBops cUops 2 5 (.syncBlockchain chain1 u0) [NMsg.headers []] =
        some (.syncUtxoSet chain1 u0 [], [ghMsg cBops chain1], [], []) ∧
    stepPhase cBops cUops 2 5 (.syncUtxoSet chain1 u0 []) [] =
        some (.saveToDisk chain1 u0, [.getdata []], [], []) ∧
    stepPhase cBops cUops 2 5 (.saveToDisk chain1 u0) [] =
        some (.idle chain1 u0, [], [.blockchainFile, .utxoFile], []) :=
  claim_C3_amended cBops cUops 2 5 chain1 u0 100 ⟨100, true⟩ [] (by decide)
    rfl rfl rfl rfl rfl rfl
